import Mathlib

/-!
# Verification of the traycer-lite patch application and file-reconstruction engine

Shallow embedding of the core utilities of the repository:

* `src/utils/fileReconstruction.ts` — context splitting, patch application,
  target-file resolution, change statistics and change summaries;
* `src/components/DiffViewer.tsx` — the display-oriented unified diff parser;
* `src/utils/parsers.ts` — the three-tier LLM response normalizer.

Strings are modelled at the `List Char` level (JavaScript strings are treated
as sequences of characters; the claims under study never exercise lone
surrogates).  JavaScript regular expressions used by the source are embedded
as executable character-list scanners that follow the engine's leftmost-match
and greedy/lazy backtracking behaviour on the concrete patterns involved.
-/

set_option maxHeartbeats 1000000
set_option maxRecDepth 10000

/-- Characters matched by JavaScript `\s` (and trimmed by `String.prototype.trim`). -/
def isJsWs (c : Char) : Bool :=
  c = ' ' ∨ c = '\t' ∨ c = '\n' ∨ c = '\r' ∨ c = '\x0b' ∨ c = '\x0c' ∨
  c = '\u00a0' ∨ c = '\u1680' ∨ ('\u2000' ≤ c ∧ c ≤ '\u200a') ∨
  c = '\u2028' ∨ c = '\u2029' ∨ c = '\u202f' ∨ c = '\u205f' ∨
  c = '\u3000' ∨ c = '\ufeff'

/-- Characters matched by JavaScript `\w`. -/
def isWordChar (c : Char) : Bool :=
  ('a' ≤ c ∧ c ≤ 'z') ∨ ('A' ≤ c ∧ c ≤ 'Z') ∨ ('0' ≤ c ∧ c ≤ '9') ∨ c = '_'

/-- Characters matched by JavaScript `\d`. -/
def isDigitChar (c : Char) : Bool := '0' ≤ c ∧ c ≤ '9'

/-- JavaScript LineTerminator characters: the line boundaries of `^` and `$`
under the `m` flag, and exactly the characters `.` refuses to match. -/
def isJsLineTerminator (c : Char) : Bool :=
  c = '\n' ∨ c = '\r' ∨ c = '\u2028' ∨ c = '\u2029'

/-- The lines a multiline-anchored regex sees: maximal runs free of any
LineTerminator.  Every single terminator is a boundary, so a `\r\n` pair
yields an empty segment between its two characters — such a segment can never
match the header pattern, so this is harmless. -/
def splitJsLines : List Char → List (List Char)
  | [] => [[]]
  | c :: rest =>
    match splitJsLines rest with
    | [] => [[]]
    | l :: ls => if isJsLineTerminator c then [] :: l :: ls else (c :: l) :: ls

/-- JavaScript `String.prototype.trim`. -/
def jsTrimList (s : List Char) : List Char :=
  ((s.dropWhile isJsWs).reverse.dropWhile isJsWs).reverse

/-- JavaScript `s.trim()` on a Lean string. -/
def jsTrim (s : String) : String := String.mk (jsTrimList s.data)

/-- JavaScript `s.split('\n')` at the character-list level.
`split` always returns at least one (possibly empty) piece. -/
def splitCharLines : List Char → List (List Char)
  | [] => [[]]
  | c :: rest =>
    match splitCharLines rest with
    | [] => [[]]
    | l :: ls => if c = '\n' then [] :: l :: ls else (c :: l) :: ls

/-- JavaScript `lines.join('\n')` at the character-list level. -/
def joinCharLines : List (List Char) → List Char
  | [] => []
  | [l] => l
  | l :: ls => l ++ '\n' :: joinCharLines ls

/-- Insert an element at an index, clamping to the end
(JavaScript `arr.splice(i, 0, x)` semantics for a non-negative index). -/
def insertAt (n : Nat) (x : α) : List α → List α
  | l => match n, l with
    | 0, l => x :: l
    | _ + 1, [] => [x]
    | n + 1, a :: l => a :: insertAt n x l

/-- Remove the element at an index; out-of-range indices leave the list
unchanged (JavaScript `arr.splice(i, 1)` semantics for a non-negative index). -/
def eraseAt (n : Nat) : List α → List α
  | l => match n, l with
    | _, [] => []
    | 0, _ :: l => l
    | n + 1, a :: l => a :: eraseAt n l

/-- JavaScript `Array.prototype.splice` start-index normalization: negative
indices count from the end, clamped at 0; positive indices clamp at `len`. -/
def spliceIndex (pos : Int) (len : Nat) : Nat :=
  if pos < 0 then ((len : Int) + pos).toNat else min pos.toNat len

/-- Does `p` occur as a prefix of `s`? (JavaScript `s.startsWith(p)` on the
remaining characters.) -/
def hasPrefixCL (p s : List Char) : Bool :=
  match p, s with
  | [], _ => true
  | _ :: _, [] => false
  | a :: p, b :: s => a = b && hasPrefixCL p s

/-! ## Patch application (`fileReconstruction.ts`, `applyUnifiedDiff` and friends) -/

/-- JavaScript `parseInt` on a nonempty decimal digit string. -/
def digitsToNat (ds : List Char) : Nat :=
  ds.foldl (fun acc c => acc * 10 + (c.toNat - '0'.toNat)) 0

/-- Match `\s+` at the front: one or more JavaScript whitespace characters,
returning the rest of the input (the following regex pieces in the patterns
under study never match whitespace, so the greedy run is exact). -/
def wsPlus (s : List Char) : Option (List Char) :=
  match s.takeWhile isJsWs with
  | [] => none
  | _ => some (s.dropWhile isJsWs)

/-- Match `(\d+)` at the front, returning the numeric value and the rest. -/
def digitsPlus (s : List Char) : Option (Nat × List Char) :=
  match s.takeWhile isDigitChar with
  | [] => none
  | ds => some (digitsToNat ds, s.dropWhile isDigitChar)

/-- Match the optional `(?:,(\d+))?` group: if a comma follows it must carry at
least one digit or the surrounding match fails (the following `\s+` cannot
match the comma, so the regex cannot recover by dropping the group). -/
def optCommaDigits (s : List Char) : Option (List Char) :=
  match s with
  | ',' :: rest => (digitsPlus rest).map (fun pr => pr.2)
  | _ => some s

/-- The applier's hunk-header regex
`^@@\s+-(\d+)(?:,(\d+))?\s+\+(\d+)(?:,(\d+))?\s+@@` (fileReconstruction.ts
line 201); only the first capture (`oldStart`) is used by the code. -/
def parseHunkOldStart (line : List Char) : Option Nat := do
  let s1 ← if hasPrefixCL "@@".data line then some (line.drop 2) else none
  let s2 ← wsPlus s1
  let s3 ← match s2 with | '-' :: r => some r | _ => none
  let (o, s4) ← digitsPlus s3
  let s5 ← optCommaDigits s4
  let s6 ← wsPlus s5
  let s7 ← match s6 with | '+' :: r => some r | _ => none
  let (_, s8) ← digitsPlus s7
  let s9 ← optCommaDigits s8
  let s10 ← wsPlus s9
  if hasPrefixCL "@@".data s10 then some o else none

/-- One iteration of `applyUnifiedDiff`'s loop (fileReconstruction.ts lines
197-226), updating the mutable line buffer and the cursor `currentLineIndex`.
The cursor is an integer because a hunk header `@@ -0... @@` sets it to `-1`
(`parseInt('0') - 1`), which JavaScript `splice` interprets from the end. -/
def applyDiffStep (lines : List (List Char)) (pos : Int) (line : List Char) :
    List (List Char) × Int :=
  match parseHunkOldStart line with
  | some oldStart => (lines, (oldStart : Int) - 1)
  | none =>
    if hasPrefixCL ['-'] line then
      (if pos < (lines.length : Int) then eraseAt (spliceIndex pos lines.length) lines
       else lines, pos)
    else if hasPrefixCL ['+'] line then
      (insertAt (spliceIndex pos lines.length) (line.drop 1) lines, pos + 1)
    else if hasPrefixCL [' '] line then
      (lines, pos + 1)
    else
      (lines, pos)

/-- `applyUnifiedDiff` (fileReconstruction.ts lines 190-229):
split content and diff on newlines, replay the diff lines against the line
buffer, and join the buffer back.  Total: every branch of the loop is total,
matching the JavaScript code, which cannot throw. -/
def applyUnifiedDiff (content diff : String) : String :=
  String.mk (joinCharLines
    (((splitCharLines diff.data).foldl
        (fun st line => applyDiffStep st.1 st.2 line) (splitCharLines content.data, 0)).1))

/-- `suggested_patch` payload of a step execution (src/types/index.ts); the
`format` field is kept as a raw string so that the normalizer's enum
validation is meaningful. -/
structure SuggestedPatch where
  format : String
  diff : String
deriving DecidableEq, Repr

/-- `StepExecution` (src/types/index.ts).  `suggested_patch` is optional to
model the `execution.suggested_patch?.diff` optional chaining used by the
reconstruction code. -/
structure StepExecution where
  step_id : String
  suggested_patch : Option SuggestedPatch
  explanation : String
deriving DecidableEq, Repr

/-- `applyPatchesToContent` (fileReconstruction.ts lines 170-185): sequential
application; a patch with a missing or empty (falsy) `diff` is skipped with
the current content retained.  The `try/catch` in the source is vacuous
because `applyUnifiedDiff` cannot throw, which the totality of this
definition witnesses. -/
def applyPatchesToContent (originalContent : String) (patches : List StepExecution) : String :=
  patches.foldl
    (fun currentContent p =>
      match p.suggested_patch with
      | none => currentContent
      | some sp => if sp.diff = "" then currentContent else applyUnifiedDiff currentContent sp.diff)
    originalContent

/-- Change statistics (`calculateChangeStats`, fileReconstruction.ts lines
234-255). -/
structure ChangeStats where
  linesAdded : Nat
  linesRemoved : Nat
  totalChanges : Nat
deriving DecidableEq, Repr

/-- `calculateChangeStats` (fileReconstruction.ts lines 234-255): coarse
position-based statistics; `Nat` subtraction gives the `Math.max(0, ...)`. -/
def calculateChangeStats (original corrected : String) : ChangeStats :=
  let originalLines := splitCharLines original.data
  let correctedLines := splitCharLines corrected.data
  let linesAdded := correctedLines.length - originalLines.length
  let linesRemoved := originalLines.length - correctedLines.length
  let changedLines := ((originalLines.zip correctedLines).filter (fun pr => pr.1 ≠ pr.2)).length
  ⟨linesAdded, linesRemoved, changedLines + linesAdded + linesRemoved⟩

/-- JavaScript `arr.join(', ')`. -/
def joinCommaSpace : List String → String
  | [] => ""
  | [x] => x
  | x :: xs => x ++ ", " ++ joinCommaSpace xs

/-- `generateChangesSummary` (fileReconstruction.ts lines 260-274). -/
def generateChangesSummary (patches : List StepExecution) (stats : ChangeStats) : String :=
  if stats.totalChanges = 0 then "No changes applied"
  else
    let changes :=
      (if stats.linesAdded > 0 then ["+" ++ Nat.repr stats.linesAdded ++ " lines"] else []) ++
      (if stats.linesRemoved > 0 then ["-" ++ Nat.repr stats.linesRemoved ++ " lines"] else [])
    let summary :=
      if changes.length > 0 then joinCommaSpace changes
      else Nat.repr stats.totalChanges ++ " modifications"
    Nat.repr patches.length ++ " patch" ++ (if patches.length = 1 then "" else "es") ++
      " applied: " ++ summary

/-! ## The display diff parser (`parsedDiff` memo, DiffViewer.tsx lines 41-113) -/

/-- Line classification used by the display parser. -/
inductive DiffLineType where
  | context
  | addition
  | deletion
  | header
  | hunk
deriving DecidableEq, Repr

/-- A parsed display line (DiffViewer.tsx `DiffLine`); the nested
`lineNumber: ... old? new? ...` record is flattened into two options. -/
structure DiffLine where
  type : DiffLineType
  content : String
  oldLineNumber : Option Nat
  newLineNumber : Option Nat
deriving DecidableEq, Repr

/-- Try the display hunk regex `@@ -(\d+),?\d* \+(\d+),?\d* @@`
(DiffViewer.tsx line 60) anchored at the current position.  The digit, comma
and space pieces never overlap, so the greedy scan is exact. -/
def displayHunkHere (s : List Char) : Option (Nat × Nat) := do
  let s1 ← if hasPrefixCL "@@ -".data s then some (s.drop 4) else none
  let (o, s2) ← digitsPlus s1
  let s3 := match s2 with | ',' :: r => r | _ => s2
  let s4 := s3.dropWhile isDigitChar
  let s5 ← match s4 with | ' ' :: r => some r | _ => none
  let s6 ← match s5 with | '+' :: r => some r | _ => none
  let (n, s7) ← digitsPlus s6
  let s8 := match s7 with | ',' :: r => r | _ => s7
  let s9 := s8.dropWhile isDigitChar
  let s10 ← match s9 with | ' ' :: r => some r | _ => none
  if hasPrefixCL "@@".data s10 then some (o, n) else none

/-- The display hunk regex is unanchored: scan for the leftmost match. -/
def displayHunkScan : List Char → Option (Nat × Nat)
  | [] => none
  | c :: rest =>
    match displayHunkHere (c :: rest) with
    | some r => some r
    | none => displayHunkScan rest

/-- One iteration of the display parser's loop (DiffViewer.tsx lines 57-110):
classify a raw line given the current `oldLineNum`/`newLineNum` counters and
return the emitted record together with the updated counters. -/
def displayClassify (line : List Char) (o n : Nat) : DiffLine × Nat × Nat :=
  if hasPrefixCL "@@".data line then
    match displayHunkScan line with
    | some r => (⟨DiffLineType.hunk, String.mk line, none, none⟩, r.1, r.2)
    | none => (⟨DiffLineType.hunk, String.mk line, none, none⟩, o, n)
  else if hasPrefixCL "---".data line || hasPrefixCL "+++".data line then
    (⟨DiffLineType.header, String.mk line, none, none⟩, o, n)
  else if hasPrefixCL ['+'] line then
    (⟨DiffLineType.addition, String.mk (line.drop 1), none, some n⟩, o, n + 1)
  else if hasPrefixCL ['-'] line then
    (⟨DiffLineType.deletion, String.mk (line.drop 1), some o, none⟩, o + 1, n)
  else if hasPrefixCL [' '] line || line = [] then
    (⟨DiffLineType.context, String.mk (if hasPrefixCL [' '] line then line.drop 1 else line),
        some o, some n⟩, o + 1, n + 1)
  else
    (⟨DiffLineType.context, String.mk line, some o, some n⟩, o + 1, n + 1)

/-- Run the display parser from given counter values. -/
def displayParseFrom : List (List Char) → Nat → Nat → List DiffLine
  | [], _, _ => []
  | l :: rest, o, n =>
    let r := displayClassify l o n
    r.1 :: displayParseFrom rest r.2.1 r.2.2

/-- The `parsedDiff` memo in `unified_diff` mode (DiffViewer.tsx lines
51-112): counters start at 0 and are reset by matching hunk headers. -/
def parsedDiffUnified (diff : String) : List DiffLine :=
  displayParseFrom (splitCharLines diff.data) 0 0

/-- The `parsedDiff` memo in `full_file` mode (DiffViewer.tsx lines 42-49):
every line is context, numbered sequentially from 1 on the new side only. -/
def parsedDiffFullFile (diff : String) : List DiffLine :=
  (splitCharLines diff.data).enum.map
    (fun pr => ⟨DiffLineType.context, String.mk pr.2, none, some (pr.1 + 1)⟩)

/-- Counter state after the display parser processes a list of lines. -/
def displayCountersAfter (ls : List (List Char)) (st : Nat × Nat) : Nat × Nat :=
  ls.foldl (fun acc l => (displayClassify l acc.1 acc.2).2) st

/-- A line that resets the display counters: it reaches the hunk branch and
its header matches the expected shape. -/
def isCounterReset (l : List Char) : Bool :=
  hasPrefixCL "@@".data l && (displayHunkScan l).isSome

/-- An emitted display record that resets the counters: a hunk record whose
stored content matches the display hunk regex. -/
def isResetRecord (dl : DiffLine) : Bool :=
  (dl.type == DiffLineType.hunk) && (displayHunkScan dl.content.data).isSome

/-! ## The multi-file context splitter (`parseCodeContext`, fileReconstruction.ts lines 26-83) -/

/-- Lowercase an ASCII letter (sufficient for the case-insensitive `i` flag on
the splitter's ASCII-only literals, and for extension lowercasing). -/
def lowerAscii (c : Char) : Char :=
  if 'A' ≤ c ∧ c ≤ 'Z' then Char.ofNat (c.toNat + 32) else c

/-- ASCII-case-insensitive prefix test. -/
def hasPrefixCI (p s : List Char) : Bool :=
  match p, s with
  | [], _ => true
  | _ :: _, [] => false
  | a :: p, b :: s => lowerAscii a = lowerAscii b && hasPrefixCI p s

/-- Split the leftmost occurrence of `pat` out of a character list, returning
the characters before it and the characters after it. -/
def findSub (pat : List Char) : List Char → Option (List Char × List Char)
  | [] => if pat = [] then some ([], []) else none
  | c :: rest =>
    if hasPrefixCL pat (c :: rest) then some ([], (c :: rest).drop pat.length)
    else
      match findSub pat rest with
      | some (pre, post) => some (c :: pre, post)
      | none => none

/-- Match the fenced-block tail shared by the markdown and bare-code-block
patterns: `\x60\x60\x60(\w+)?\n([\s\S]*?)\n\x60\x60\x60`.  The optional word
run must be followed by a newline (otherwise neither keeping nor dropping the
group lets the literal newline match), and the lazy body extends to the first
newline+fence.  Returns the language tag (absent when empty), the body, and
the rest of the input after the closing fence. -/
def mdFence (s : List Char) : Option (Option (List Char) × List Char × List Char) := do
  let s1 ← if hasPrefixCL "```".data s then some (s.drop 3) else none
  let w := s1.takeWhile isWordChar
  let s2 := s1.dropWhile isWordChar
  let s3 ← match s2 with | '\n' :: r => some r | _ => none
  let (body, rest) ← findSub "\n```".data s3
  some ((if w = [] then none else some w), body, rest)

/-- One match of the markdown-with-filename pattern. -/
structure MdMatch where
  filename : List Char
  lang : Option (List Char)
  body : List Char
deriving DecidableEq, Repr

/-- After a filename marker: `\s*([^\n]+)\n` followed by a fence.  The greedy
`\s*` is retried longest-first (`k` whitespace characters skipped), matching
the engine's backtracking; the `[^\n]+` capture is the maximal nonempty run up
to the newline. -/
def mdTryOneSkip (s : List Char) (k : Nat) : Option (MdMatch × List Char) := do
  let s1 := s.drop k
  let fn := s1.takeWhile (fun c => c ≠ '\n')
  let _ ← if fn = [] then none else some ()
  let s2 := s1.drop fn.length
  let s3 ← match s2 with | '\n' :: r => some r | _ => none
  let (lang, body, rest) ← mdFence s3
  some (⟨fn, lang, body⟩, rest)

/-- Retry loop over the number of skipped whitespace characters, from `k`
down to zero. -/
def mdTrySkips (s : List Char) : Nat → Option (MdMatch × List Char)
  | 0 => mdTryOneSkip s 0
  | k + 1 =>
    match mdTryOneSkip s (k + 1) with
    | some r => some r
    | none => mdTrySkips s k

/-- The filename marker alternation `(?:File:|Filename:|\*\*File:\*\*)` with
the `i` flag; the three alternatives are mutually exclusive, so the
alternation is deterministic. -/
def mdMarker (s : List Char) : Option (List Char) :=
  if hasPrefixCI "File:".data s then some (s.drop 5)
  else if hasPrefixCI "Filename:".data s then some (s.drop 9)
  else if hasPrefixCI "**File:**".data s then some (s.drop 9)
  else none

/-- Attempt the whole markdown pattern with the marker anchored here. -/
def mdTryAt (s : List Char) : Option (MdMatch × List Char) :=
  match mdMarker s with
  | some r => mdTrySkips r (r.takeWhile isJsWs).length
  | none => none

/-- Scan for the next markdown match: the pattern starts with `(?:^|\n)`, so a
match may begin at index 0 (without consuming anything) or consume a newline. -/
def mdFindFrom : List Char → Bool → Option (MdMatch × List Char)
  | s, atStart =>
    match (if atStart then mdTryAt s else none) with
    | some r => some r
    | none =>
      match s with
      | [] => none
      | c :: rest =>
        match (if c = '\n' then mdTryAt rest else none) with
        | some r => some r
        | none => mdFindFrom rest false

/-- `matchAll` for the markdown pattern; every match consumes at least one
character, so input length bounds the number of matches. -/
def mdMatchAllAux : Nat → List Char → Bool → List MdMatch
  | 0, _, _ => []
  | fuel + 1, s, atStart =>
    match mdFindFrom s atStart with
    | none => []
    | some (m, rest) => m :: mdMatchAllAux fuel rest false

/-- All matches of the markdown filename pattern (fileReconstruction.ts line 32). -/
def mdMatchAll (s : List Char) : List MdMatch := mdMatchAllAux (s.length + 1) s true

/-- One match of the comment-style filename-header pattern. -/
structure CommentMatch where
  filename : List Char
  body : List Char
deriving DecidableEq, Repr

/-- The comment marker alternation `(?:\/\/|#|<!--)`; the alternatives start
with distinct characters, so the alternation is deterministic. -/
def commentMarker (s : List Char) : Option (List Char) :=
  if hasPrefixCL "//".data s then some (s.drop 2)
  else if hasPrefixCL "#".data s then some (s.drop 1)
  else if hasPrefixCL "<!--".data s then some (s.drop 4)
  else none

/-- Match `(?:\s*-->)?\n` with one candidate whitespace run length for the
group's `\s*`; the arrow and the following newline must both be present. -/
def commentArrowOne (s : List Char) (k : Nat) : Option (List Char) := do
  let s1 := s.drop k
  let s2 ← if hasPrefixCL "-->".data s1 then some (s1.drop 3) else none
  match s2 with | '\n' :: r => some r | _ => none

/-- Greedy retry loop for the arrow group's `\s*`, longest run first. -/
def commentArrowTry (s : List Char) : Nat → Option (List Char)
  | 0 => commentArrowOne s 0
  | k + 1 =>
    match commentArrowOne s (k + 1) with
    | some r => some r
    | none => commentArrowTry s k

/-- Match `(?:\s*-->)?\n`: the optional group is tried first (greedy), then
the bare newline.  Returns the rest of the input after the newline. -/
def commentHeaderEnd (s : List Char) : Option (List Char) :=
  match commentArrowTry s (s.takeWhile isJsWs).length with
  | some r => some r
  | none => match s with | '\n' :: r => some r | _ => none

/-- For a fixed lazy-run length `p` (characters before the dot), try word runs
of length `w` down to 1 after the dot, as the engine backtracks the greedy
`[\w]+`; each candidate must be followed by a successful `(?:\s*-->)?\n`. -/
def commentFnWords (s : List Char) (p : Nat) : Nat → Option (List Char × List Char)
  | 0 => none
  | w + 1 =>
    match commentHeaderEnd (s.drop (p + 1 + (w + 1))) with
    | some rest => some (s.take (p + 1 + (w + 1)), rest)
    | none => commentFnWords s p w

/-- Search over the lazy run length `p` (increasing, per `[^\n]+?`): the first
`p ≥ 1` whose first `p` characters avoid newlines, followed by a dot, a word
run and a successful header end, wins.  Returns the filename capture and the
rest after the header's newline. -/
def commentFnAux (s : List Char) : Nat → Nat → Option (List Char × List Char)
  | _, 0 => none
  | p, fuel + 1 =>
    let ok := (s.take p).all (fun c => c ≠ '\n') &&
      (match s.get? p with | some c => c = '.' | none => false)
    let here :=
      if ok then
        let wmax := ((s.drop (p + 1)).takeWhile isWordChar).length
        commentFnWords s p wmax
      else none
    match here with
    | some r => some r
    | none => commentFnAux s (p + 1) fuel

/-- Does `[^\n]+?\.[\w]+` match somewhere at the head of `s`?  (Existence is
all the lookahead needs.) -/
def commentFnExists (s : List Char) : Bool :=
  (List.range s.length).any (fun p =>
    decide (0 < p) && (s.take p).all (fun c => c ≠ '\n') &&
    (match s.get? p with | some c => c = '.' | none => false) &&
    (match s.get? (p + 1) with | some c => isWordChar c | none => false))

/-- The content lookahead `(?=\n(?:\/\/|#|<!--)[^\n]+?\.[\w]+|\n*$)`:
either a newline followed by another comment filename header, or nothing but
newlines up to the end of the input (`$` has no `m` flag here). -/
def commentLookahead (s : List Char) : Bool :=
  (match s with
   | '\n' :: r =>
     match commentMarker r with
     | some r2 => commentFnExists r2
     | none => false
   | _ => false) ||
  s.all (fun c => c = '\n')

/-- The lazy body `([\s\S]*?)` grows until the lookahead holds; it always
succeeds by the end of the input (where `\n*$` holds vacuously). -/
def commentBodyAux (s : List Char) (k : Nat) : Nat → Option (List Char × List Char)
  | 0 => none
  | fuel + 1 =>
    if commentLookahead (s.drop k) then some (s.take k, s.drop k)
    else commentBodyAux s (k + 1) fuel

/-- After the comment marker, one candidate `\s*` run length: filename part,
then body part. -/
def commentOneSkip (s : List Char) (k : Nat) : Option (CommentMatch × List Char) := do
  let s1 := s.drop k
  let (fn, rest) ← commentFnAux s1 1 (s1.length + 1)
  let (body, rem) ← commentBodyAux rest 0 (rest.length + 1)
  some (⟨fn, body⟩, rem)

/-- Greedy retry loop for the `\s*` after the comment marker. -/
def commentSkipsTry (s : List Char) : Nat → Option (CommentMatch × List Char)
  | 0 => commentOneSkip s 0
  | k + 1 =>
    match commentOneSkip s (k + 1) with
    | some r => some r
    | none => commentSkipsTry s k

/-- Attempt the whole comment pattern with the marker anchored here. -/
def commentTryAt (s : List Char) : Option (CommentMatch × List Char) :=
  match commentMarker s with
  | some r => commentSkipsTry r (r.takeWhile isJsWs).length
  | none => none

/-- Scan for the next comment-pattern match (anchor `(?:^|\n)` as for the
markdown pattern). -/
def commentFindFrom : List Char → Bool → Option (CommentMatch × List Char)
  | s, atStart =>
    match (if atStart then commentTryAt s else none) with
    | some r => some r
    | none =>
      match s with
      | [] => none
      | c :: rest =>
        match (if c = '\n' then commentTryAt rest else none) with
        | some r => some r
        | none => commentFindFrom rest false

/-- `matchAll` for the comment pattern (fileReconstruction.ts line 45). -/
def commentMatchAllAux : Nat → List Char → Bool → List CommentMatch
  | 0, _, _ => []
  | fuel + 1, s, atStart =>
    match commentFindFrom s atStart with
    | none => []
    | some (m, rest) => m :: commentMatchAllAux fuel rest false

/-- All matches of the comment filename-header pattern. -/
def commentMatchAll (s : List Char) : List CommentMatch :=
  commentMatchAllAux (s.length + 1) s true

/-- One match of the bare fenced-code-block pattern. -/
structure CodeBlockMatch where
  lang : Option (List Char)
  body : List Char
deriving DecidableEq, Repr

/-- Scan for the next bare fenced block (pattern
`\x60\x60\x60(\w+)?\n([\s\S]*?)\n\x60\x60\x60`, fileReconstruction.ts line 58);
it has no start anchor, so every position is tried. -/
def codeBlockFindFrom : List Char → Option (CodeBlockMatch × List Char)
  | [] => none
  | c :: rest =>
    match mdFence (c :: rest) with
    | some (lang, body, rem) => some (⟨lang, body⟩, rem)
    | none => codeBlockFindFrom rest

/-- `matchAll` for the bare fenced-block pattern. -/
def codeBlockMatchAllAux : Nat → List Char → List CodeBlockMatch
  | 0, _ => []
  | fuel + 1, s =>
    match codeBlockFindFrom s with
    | none => []
    | some (m, rest) => m :: codeBlockMatchAllAux fuel rest

/-- All bare fenced-block matches. -/
def codeBlockMatchAll (s : List Char) : List CodeBlockMatch :=
  codeBlockMatchAllAux (s.length + 1) s

/-- `replace(/\x60\x60\x60\w*\n?/g, '')` (fileReconstruction.ts line 72):
delete every fence marker together with its tag and one following newline. -/
def stripFenceMarkers : Nat → List Char → List Char
  | 0, s => s
  | fuel + 1, s =>
    match s with
    | [] => []
    | c :: rest =>
      if hasPrefixCL "```".data (c :: rest) then
        let r1 := (c :: rest).drop 3
        let r2 := r1.dropWhile isWordChar
        let r3 := match r2 with | '\n' :: r => r | _ => r2
        stripFenceMarkers fuel r3
      else c :: stripFenceMarkers fuel rest

/-- Split a character list on an arbitrary separator (JavaScript
`s.split(sep)` for a single-character separator). -/
def splitCharOn (sep : Char) : List Char → List (List Char)
  | [] => [[]]
  | c :: rest =>
    match splitCharOn sep rest with
    | [] => [[]]
    | l :: ls => if c = sep then [] :: l :: ls else (c :: l) :: ls

/-- The extension-to-language lookup table of `detectLanguageFromFilename`
(fileReconstruction.ts lines 282-313). -/
def languageMap : List (String × String) :=
  [("js", "javascript"), ("jsx", "javascript"), ("ts", "typescript"),
   ("tsx", "typescript"), ("py", "python"), ("java", "java"), ("cpp", "cpp"),
   ("c", "c"), ("cs", "csharp"), ("php", "php"), ("rb", "ruby"), ("go", "go"),
   ("rs", "rust"), ("swift", "swift"), ("kt", "kotlin"), ("scala", "scala"),
   ("html", "html"), ("css", "css"), ("scss", "scss"), ("sass", "sass"),
   ("json", "json"), ("xml", "xml"), ("yaml", "yaml"), ("yml", "yaml"),
   ("md", "markdown"), ("sql", "sql"), ("sh", "bash"), ("bash", "bash"),
   ("zsh", "bash"), ("ps1", "powershell")]

/-- `detectLanguageFromFilename` (fileReconstruction.ts lines 279-316):
lowercased last dot-separated component, looked up with default `text`. -/
def detectLanguageFromFilename (filename : String) : String :=
  let ext := String.mk (((splitCharOn '.' filename.data).getLastD []).map lowerAscii)
  match languageMap.lookup ext with
  | some l => l
  | none => "text"

/-- The language-to-extension table of `getExtensionFromLanguage`
(fileReconstruction.ts lines 338-362). -/
def extensionMap : List (String × String) :=
  [("javascript", "js"), ("typescript", "ts"), ("python", "py"),
   ("java", "java"), ("cpp", "cpp"), ("c", "c"), ("csharp", "cs"),
   ("php", "php"), ("ruby", "rb"), ("go", "go"), ("rust", "rs"),
   ("swift", "swift"), ("kotlin", "kt"), ("scala", "scala"), ("html", "html"),
   ("css", "css"), ("scss", "scss"), ("json", "json"), ("xml", "xml"),
   ("yaml", "yaml"), ("markdown", "md"), ("sql", "sql"), ("bash", "sh")]

/-- `getExtensionFromLanguage` (fileReconstruction.ts lines 337-365). -/
def getExtensionFromLanguage (language : String) : String :=
  match extensionMap.lookup language with
  | some e => e
  | none => "txt"

/-- Positions where `^` matches under the `m` flag: the whole input plus the
suffix after every LineTerminator. -/
def lineStartsAux : List Char → List (List Char)
  | [] => []
  | c :: rest =>
    if isJsLineTerminator c then rest :: lineStartsAux rest else lineStartsAux rest

/-- All line-start suffixes of the input. -/
def lineStarts (s : List Char) : List (List Char) := s :: lineStartsAux s

/-- Test a `^\s*(?:alternatives...)/m` pattern: at some line start, after the
greedy whitespace run, one of the alternative matchers fires.  The
alternatives begin with non-whitespace characters, so the greedy run is exact. -/
def lineStartTest (alts : List Char → Bool) (s : List Char) : Bool :=
  (lineStarts s).any (fun t => alts (t.dropWhile isJsWs))

/-- Alternative `kw\s+next` (for example `if\s+__name__`). -/
def kwThenWs (kw next : List Char) (t : List Char) : Bool :=
  if hasPrefixCL kw t then
    match wsPlus (t.drop kw.length) with
    | some r => hasPrefixCL next r
    | none => false
  else false

/-- Alternative `kw\s+\w` (for example `void\s+\w`). -/
def kwThenWsWord (kw : List Char) (t : List Char) : Bool :=
  if hasPrefixCL kw t then
    match wsPlus (t.drop kw.length) with
    | some r => match r with | c :: _ => isWordChar c | [] => false
    | none => false
  else false

/-- Characters matched by `.` without the `s` flag. -/
def isDotChar (c : Char) : Bool :=
  ¬(c = '\n' ∨ c = '\r' ∨ c = ' ' ∨ c = ' ')

/-- The TypeScript detector's tail `.*:\s*\w`: some run of dot-characters, a
colon, then whitespace and a word character. -/
def tsTailTest (s : List Char) : Bool :=
  (List.range (s.length + 1)).any (fun j =>
    (s.take j).all isDotChar &&
    (match s.get? j with | some c => c = ':' | none => false) &&
    (match (s.drop (j + 1)).dropWhile isJsWs with
     | c :: _ => isWordChar c
     | [] => false))

/-- `detectLanguageFromContent` (fileReconstruction.ts lines 321-332): the
seven keyword-pattern tests in source order, defaulting to `text`. -/
def detectLanguageFromContent (content : String) : String :=
  let s := content.data
  if lineStartTest (fun t =>
      hasPrefixCL "import".data t || hasPrefixCL "from".data t ||
      hasPrefixCL "def".data t || hasPrefixCL "class".data t ||
      kwThenWs "if".data "__name__".data t) s then "python"
  else if lineStartTest (fun t =>
      hasPrefixCL "function".data t || hasPrefixCL "const".data t ||
      hasPrefixCL "let".data t || hasPrefixCL "var".data t ||
      hasPrefixCL "class".data t || hasPrefixCL "import".data t ||
      hasPrefixCL "export".data t) s then "javascript"
  else if lineStartTest (fun t =>
      (hasPrefixCL "interface".data t && tsTailTest (t.drop 9)) ||
      (hasPrefixCL "type".data t && tsTailTest (t.drop 4)) ||
      (hasPrefixCL "class".data t && tsTailTest (t.drop 5)) ||
      (hasPrefixCL "import".data t && tsTailTest (t.drop 6)) ||
      (hasPrefixCL "export".data t && tsTailTest (t.drop 6))) s then "typescript"
  else if lineStartTest (fun t =>
      hasPrefixCL "public".data t || hasPrefixCL "private".data t ||
      hasPrefixCL "class".data t || hasPrefixCL "import".data t ||
      hasPrefixCL "package".data t) s then "java"
  else if lineStartTest (fun t =>
      hasPrefixCL "#include".data t || kwThenWs "int".data "main".data t ||
      kwThenWsWord "void".data t) s then "c"
  else if lineStartTest (fun t =>
      hasPrefixCL "<?php".data t || kwThenWsWord "function".data t ||
      kwThenWsWord "class".data t) s then "php"
  else if lineStartTest (fun t =>
      kwThenWsWord "def".data t || kwThenWsWord "class".data t ||
      kwThenWsWord "module".data t) s then "ruby"
  else "text"

/-- A split-out source file (fileReconstruction.ts `ParsedCodeContext.files`
element). -/
structure SourceFile where
  filename : String
  content : String
  language : String
deriving DecidableEq, Repr

/-- Result of `parseCodeContext`. -/
structure ParsedCodeContext where
  files : List SourceFile
  isSingleFile : Bool
deriving DecidableEq, Repr

/-- `parseCodeContext` (fileReconstruction.ts lines 26-83): blank input gives
no files; otherwise the markdown, comment-header and bare-code-block patterns
are tried in priority order with the single-file fallback last. -/
def parseCodeContext (codeContext : String) : ParsedCodeContext :=
  if jsTrim codeContext = "" then ⟨[], true⟩
  else
    match mdMatchAll codeContext.data with
    | m :: ms =>
      let files := (m :: ms).map (fun mm =>
        let fn := jsTrimList mm.filename
        { filename := String.mk fn
          content := String.mk (jsTrimList mm.body)
          language :=
            match mm.lang with
            | some l => String.mk l
            | none => detectLanguageFromFilename (String.mk fn) : SourceFile })
      ⟨files, files.length == 1⟩
    | [] =>
      match commentMatchAll codeContext.data with
      | m :: ms =>
        let files := (m :: ms).map (fun cm =>
          let fn := jsTrimList cm.filename
          { filename := String.mk fn
            content := String.mk (jsTrimList cm.body)
            language := detectLanguageFromFilename (String.mk fn) : SourceFile })
        ⟨files, files.length == 1⟩
      | [] =>
        let codeBlocks := codeBlockMatchAll codeContext.data
        if 1 < codeBlocks.length then
          ⟨codeBlocks.enum.map (fun pr =>
            { filename := "file" ++ Nat.repr (pr.1 + 1) ++ "." ++
                getExtensionFromLanguage
                  (match pr.2.lang with | some l => String.mk l | none => "txt")
              content := String.mk (jsTrimList pr.2.body)
              language :=
                match pr.2.lang with
                | some l => String.mk l
                | none => "text" : SourceFile }), false⟩
        else
          let cleanedContent :=
            jsTrimList (stripFenceMarkers (codeContext.data.length + 1) codeContext.data)
          ⟨[{ filename := "main.txt"
              content := String.mk cleanedContent
              language := detectLanguageFromContent (String.mk cleanedContent) }], true⟩

/-! ## Target-file resolution and reconstruction (fileReconstruction.ts lines 88-165) -/

/-- The file-header regex `^(?:\+\+\+|---)\s+(.+)$` with the `m` flag on one
terminator-free segment (the caller splits on every LineTerminator, matching
where `^` and `$` assert under the `m` flag).  Within a segment every
character is matched by `.`, so after the mandatory whitespace run the greedy
`(.+)` captures the rest of the segment; when that rest is empty the engine
backtracks the greedy `\s+` by one character so that `(.+)` captures the
final whitespace character. -/
def fileHeaderCapture (line : List Char) : Option (List Char) :=
  let rest :=
    if hasPrefixCL "+++".data line then some (line.drop 3)
    else if hasPrefixCL "---".data line then some (line.drop 3)
    else none
  match rest with
  | none => none
  | some r =>
    let w := r.takeWhile isJsWs
    let t := r.dropWhile isJsWs
    if w = [] then none
    else if t ≠ [] then some t
    else if 2 ≤ w.length then some [w.getLastD ' ']
    else none

/-- `determineTargetFile` (fileReconstruction.ts lines 145-165): the first
file-header line of the patch wins; otherwise the single or first split file;
otherwise a placeholder.  The trailing `|| 'modified_file.txt'` also replaces
an empty (falsy) filename. -/
def determineTargetFile (execution : StepExecution) (parsedContext : ParsedCodeContext) :
    String :=
  let patch :=
    match execution.suggested_patch with
    | some sp => sp.diff
    | none => ""
  match (splitJsLines patch.data).findSome? fileHeaderCapture with
  | some cap =>
    let stripped :=
      if hasPrefixCL "a/".data cap || hasPrefixCL "b/".data cap then cap.drop 2 else cap
    String.mk stripped
  | none =>
    if parsedContext.isSingleFile && parsedContext.files.length == 1 then
      match parsedContext.files with
      | f :: _ => f.filename
      | [] => "modified_file.txt"
    else
      match parsedContext.files with
      | f :: _ => if f.filename = "" then "modified_file.txt" else f.filename
      | [] => "modified_file.txt"

/-- `groupPatchesByFile` (fileReconstruction.ts lines 121-140), read back per
filename: executions with a missing or empty (falsy) `diff` are skipped; the
rest keep their order.  The record built by the source is only ever consumed
through per-filename lookups, so the per-filename fiber is the whole content. -/
def patchesForFile (executions : List StepExecution) (parsedContext : ParsedCodeContext)
    (filename : String) : List StepExecution :=
  executions.filter (fun e =>
    (match e.suggested_patch with
     | none => false
     | some sp => sp.diff ≠ "") &&
    determineTargetFile e parsedContext == filename)

/-- Output record of `reconstructFiles` (fileReconstruction.ts lines 3-12). -/
structure ReconstructedFile where
  filename : String
  originalContent : String
  correctedContent : String
  language : String
  changesSummary : String
  linesAdded : Nat
  linesRemoved : Nat
  totalChanges : Nat
deriving DecidableEq, Repr

/-- `reconstructFiles` (fileReconstruction.ts lines 88-116): split the
context, group the accepted executions by resolved target, apply each group
sequentially and attach statistics and a summary. -/
def reconstructFiles (codeContext : String) (acceptedExecutions : List StepExecution) :
    List ReconstructedFile :=
  let parsedContext := parseCodeContext codeContext
  parsedContext.files.map (fun file =>
    let filePatches := patchesForFile acceptedExecutions parsedContext file.filename
    let correctedContent := applyPatchesToContent file.content filePatches
    let stats := calculateChangeStats file.content correctedContent
    { filename := file.filename
      originalContent := file.content
      correctedContent := correctedContent
      language := file.language
      changesSummary := generateChangesSummary filePatches stats
      linesAdded := stats.linesAdded
      linesRemoved := stats.linesRemoved
      totalChanges := stats.totalChanges })

/-! ## The response normalizer (`parsers.ts`) -/

/-- JSON values as produced by `JSON.parse`.  Number literals are kept
verbatim: no claim under study inspects numeric values. -/
inductive JValue where
  | null
  | bool (b : Bool)
  | num (lit : String)
  | str (s : String)
  | arr (elems : List JValue)
  | obj (fields : List (String × JValue))

/-- JSON whitespace accepted by `JSON.parse` between tokens. -/
def isJsonWs (c : Char) : Bool := c = ' ' ∨ c = '\t' ∨ c = '\n' ∨ c = '\r'

/-- Skip JSON whitespace. -/
def jsonSkipWs (s : List Char) : List Char := s.dropWhile isJsonWs

/-- Hexadecimal digit value. -/
def hexVal (c : Char) : Option Nat :=
  if '0' ≤ c ∧ c ≤ '9' then some (c.toNat - '0'.toNat)
  else if 'a' ≤ c ∧ c ≤ 'f' then some (c.toNat - 'a'.toNat + 10)
  else if 'A' ≤ c ∧ c ≤ 'F' then some (c.toNat - 'A'.toNat + 10)
  else none

/-- Parse the body of a JSON string after the opening quote, returning the
decoded characters and the rest after the closing quote.  Consecutive
surrogate escapes combine into one scalar; a lone surrogate (not expressible
as a Lean `Char`) decodes to U+FFFD — no claim under study reaches that case. -/
def jpStringAux : Nat → List Char → Option (List Char × List Char)
  | 0, _ => none
  | _, [] => none
  | fuel + 1, c :: rest =>
    if c = '"' then some ([], rest)
    else if c = '\\' then
      match rest with
      | [] => none
      | e :: rest2 =>
        if e = 'u' then
          match rest2 with
          | h1 :: h2 :: h3 :: h4 :: rest3 => do
            let v1 ← hexVal h1
            let v2 ← hexVal h2
            let v3 ← hexVal h3
            let v4 ← hexVal h4
            let code := ((v1 * 16 + v2) * 16 + v3) * 16 + v4
            if 0xd800 ≤ code ∧ code ≤ 0xdbff then
              match rest3 with
              | '\\' :: 'u' :: g1 :: g2 :: g3 :: g4 :: rest4 =>
                match hexVal g1, hexVal g2, hexVal g3, hexVal g4 with
                | some w1, some w2, some w3, some w4 =>
                  let lo := ((w1 * 16 + w2) * 16 + w3) * 16 + w4
                  if 0xdc00 ≤ lo ∧ lo ≤ 0xdfff then
                    (jpStringAux fuel rest4).map (fun pr =>
                      (Char.ofNat (0x10000 + (code - 0xd800) * 0x400 + (lo - 0xdc00)) :: pr.1,
                       pr.2))
                  else (jpStringAux fuel rest3).map (fun pr => ('�' :: pr.1, pr.2))
                | _, _, _, _ => (jpStringAux fuel rest3).map (fun pr => ('�' :: pr.1, pr.2))
              | _ => (jpStringAux fuel rest3).map (fun pr => ('�' :: pr.1, pr.2))
            else if 0xdc00 ≤ code ∧ code ≤ 0xdfff then
              (jpStringAux fuel rest3).map (fun pr => ('�' :: pr.1, pr.2))
            else
              (jpStringAux fuel rest3).map (fun pr => (Char.ofNat code :: pr.1, pr.2))
          | _ => none
        else
          match (if e = '"' then some '"' else if e = '\\' then some '\\'
                 else if e = '/' then some '/' else if e = 'b' then some '\x08'
                 else if e = 'f' then some '\x0c' else if e = 'n' then some '\n'
                 else if e = 'r' then some '\r' else if e = 't' then some '\t'
                 else none) with
          | some ch => (jpStringAux fuel rest2).map (fun pr => (ch :: pr.1, pr.2))
          | none => none
    else if c.toNat < 0x20 then none
    else (jpStringAux fuel rest).map (fun pr => (c :: pr.1, pr.2))

/-- Fraction and exponent tail of a JSON number; `acc` is the literal so far. -/
def jpNumTail (acc : List Char) (s : List Char) : Option (List Char × List Char) := do
  let fr ←
    match s with
    | '.' :: r =>
      (match r.takeWhile isDigitChar with
       | [] => none
       | ds => some (acc ++ '.' :: ds, r.dropWhile isDigitChar))
    | _ => some (acc, s)
  match fr.2 with
  | c :: r =>
    if c = 'e' ∨ c = 'E' then
      let sg := match r with
        | '+' :: rr => (['+'], rr)
        | '-' :: rr => (['-'], rr)
        | _ => (([] : List Char), r)
      match sg.2.takeWhile isDigitChar with
      | [] => none
      | ds => some (fr.1 ++ c :: sg.1 ++ ds, sg.2.dropWhile isDigitChar)
    else some fr
  | [] => some fr

/-- JSON number literal (`-?(0|[1-9][0-9]*)(\.[0-9]+)?([eE][+-]?[0-9]+)?`). -/
def jpNumber (s : List Char) : Option (List Char × List Char) :=
  let sg := match s with
    | '-' :: r => ((['-'] : List Char), r)
    | _ => (([] : List Char), s)
  match sg.2 with
  | '0' :: r => jpNumTail (sg.1 ++ ['0']) r
  | c :: r =>
    if isDigitChar c then
      jpNumTail (sg.1 ++ c :: r.takeWhile isDigitChar) (r.dropWhile isDigitChar)
    else none
  | [] => none

mutual

/-- Parse one JSON value (after skipping leading whitespace). -/
def jpValue : Nat → List Char → Option (JValue × List Char)
  | 0, _ => none
  | fuel + 1, s =>
    match jsonSkipWs s with
    | [] => none
    | c :: rest =>
      if c = '{' then jpObjBody fuel rest
      else if c = '[' then jpArrBody fuel rest
      else if c = '"' then
        (jpStringAux (rest.length + 1) rest).map (fun pr => (JValue.str (String.mk pr.1), pr.2))
      else if hasPrefixCL "true".data (c :: rest) then some (JValue.bool true, rest.drop 3)
      else if hasPrefixCL "false".data (c :: rest) then some (JValue.bool false, rest.drop 4)
      else if hasPrefixCL "null".data (c :: rest) then some (JValue.null, rest.drop 3)
      else (jpNumber (c :: rest)).map (fun pr => (JValue.num (String.mk pr.1), pr.2))

/-- Object body after the opening brace. -/
def jpObjBody : Nat → List Char → Option (JValue × List Char)
  | 0, _ => none
  | fuel + 1, s =>
    match jsonSkipWs s with
    | '}' :: rest => some (JValue.obj [], rest)
    | _ => jpObjLoop fuel s []

/-- Members of a JSON object; `acc` holds the members parsed so far in order
(duplicate keys are kept; lookups read the last one, as `JSON.parse` does). -/
def jpObjLoop : Nat → List Char → List (String × JValue) → Option (JValue × List Char)
  | 0, _, _ => none
  | fuel + 1, s, acc =>
    match jsonSkipWs s with
    | '"' :: rest =>
      (do
        let (k, r1) ← jpStringAux (rest.length + 1) rest
        let r2 ← match jsonSkipWs r1 with | ':' :: rr => some rr | _ => none
        let (v, r3) ← jpValue fuel r2
        let acc2 := acc ++ [(String.mk k, v)]
        match jsonSkipWs r3 with
        | ',' :: r4 => jpObjLoop fuel r4 acc2
        | '}' :: r4 => some (JValue.obj acc2, r4)
        | _ => none)
    | _ => none

/-- Array body after the opening bracket. -/
def jpArrBody : Nat → List Char → Option (JValue × List Char)
  | 0, _ => none
  | fuel + 1, s =>
    match jsonSkipWs s with
    | ']' :: rest => some (JValue.arr [], rest)
    | _ => jpArrLoop fuel s []

/-- Elements of a JSON array. -/
def jpArrLoop : Nat → List Char → List JValue → Option (JValue × List Char)
  | 0, _, _ => none
  | fuel + 1, s, acc =>
    (do
      let (v, r1) ← jpValue fuel s
      match jsonSkipWs r1 with
      | ',' :: r2 => jpArrLoop fuel r2 (acc ++ [v])
      | ']' :: r2 => some (JValue.arr (acc ++ [v]), r2)
      | _ => none)

end

/-- `JSON.parse`: one value, surrounded only by whitespace. -/
def jsonParseCL (s : List Char) : Option JValue := do
  let (v, rest) ← jpValue (3 * s.length + 3) s
  if jsonSkipWs rest = [] then some v else none

/-- JavaScript property read on a parsed JSON value; on objects the last
binding for the key wins (`JSON.parse` duplicate-key behaviour), elsewhere the
access yields `undefined` (`none`). -/
def getField (v : JValue) (key : String) : Option JValue :=
  match v with
  | JValue.obj fields => (fields.reverse.find? (fun f => f.1 == key)).map (fun f => f.2)
  | _ => none

/-- `parseValidatedStepExecution` (parsers.ts lines 179-228).  JavaScript
truthiness collapses each `!x || typeof x !== "string"` check into
"present, a string and non-empty"; `typeof null` is `"object"` but `null` is
falsy, so the `suggested_patch` check admits exactly objects and arrays. -/
def parseValidatedStepExecution (parsed : JValue) : Except String StepExecution := do
  let step_id ←
    match getField parsed "step_id" with
    | some (JValue.str s) =>
      if s = "" then Except.error "Missing or invalid step_id field" else Except.ok s
    | _ => Except.error "Missing or invalid step_id field"
  let suggestedPatch ←
    match getField parsed "suggested_patch" with
    | some (JValue.obj fs) => Except.ok (JValue.obj fs)
    | some (JValue.arr es) => Except.ok (JValue.arr es)
    | _ => Except.error "Missing or invalid suggested_patch object"
  let format ←
    match getField suggestedPatch "format" with
    | some (JValue.str s) =>
      if s = "" then Except.error "Missing or invalid patch format" else Except.ok s
    | _ => Except.error "Missing or invalid patch format"
  let diff ←
    match getField suggestedPatch "diff" with
    | some (JValue.str s) =>
      if s = "" then Except.error "Missing or invalid patch diff" else Except.ok s
    | _ => Except.error "Missing or invalid patch diff"
  let explanation ←
    match getField parsed "explanation" with
    | some (JValue.str s) =>
      if s = "" then Except.error "Missing or invalid explanation field" else Except.ok s
    | _ => Except.error "Missing or invalid explanation field"
  if format = "unified_diff" ∨ format = "full_file" then
    Except.ok
      { step_id := jsTrim step_id
        suggested_patch := some { format := format, diff := diff }
        explanation := jsTrim explanation }
  else
    Except.error "Invalid patch format. Must be one of: unified_diff, full_file"

/-- `replace(/^\x60\x60\x60(?:json)?\s*\x2f m, '')`: delete the first
line-start fence marker together with its optional `json` tag and following
whitespace; `atStart` tracks whether the current position is a line start. -/
def stripLeadingFenceCL : List Char → Bool → List Char
  | s, atStart =>
    if atStart ∧ hasPrefixCL "```".data s then
      let r := s.drop 3
      let r2 := if hasPrefixCL "json".data r then r.drop 4 else r
      r2.dropWhile isJsWs
    else
      match s with
      | [] => []
      | c :: rest => c :: stripLeadingFenceCL rest (isJsLineTerminator c)

/-- `$` under the `m` flag: end of input or just before a LineTerminator,
retried from the greedy whitespace run's end backwards. -/
def trailingFenceEnd (s : List Char) : Nat → Option Nat
  | 0 => if (match s with | [] => true | c :: _ => isJsLineTerminator c) then some 0 else none
  | t + 1 =>
    if (match s.drop (t + 1) with | [] => true | c :: _ => isJsLineTerminator c) then
      some (t + 1)
    else trailingFenceEnd s t

/-- One candidate leading-whitespace length for `\s*\x60\x60\x60\s*$`. -/
def trailingFenceOne (s : List Char) (k : Nat) : Option (List Char) :=
  if hasPrefixCL "```".data (s.drop k) then
    let after := s.drop (k + 3)
    match trailingFenceEnd after (after.takeWhile isJsWs).length with
    | some t => some (s.drop (k + 3 + t))
    | none => none
  else none

/-- Greedy retry loop for the leading `\s*` of the trailing-fence pattern. -/
def trailingFenceWs (s : List Char) : Nat → Option (List Char)
  | 0 => trailingFenceOne s 0
  | k + 1 =>
    match trailingFenceOne s (k + 1) with
    | some r => some r
    | none => trailingFenceWs s k

/-- `replace(/\s*\x60\x60\x60\s*$\x2f m, '')`: delete the leftmost match of
whitespace + fence + whitespace ending at a line end. -/
def stripTrailingFenceScan : List Char → List Char
  | [] => []
  | c :: rest =>
    match trailingFenceWs (c :: rest) ((c :: rest).takeWhile isJsWs).length with
    | some after => after
    | none => c :: stripTrailingFenceScan rest

/-- `match(/\x7b[\s\S]*\x7d/)`: the span from the first opening brace to the
last closing brace, when a closing brace follows the first opening one. -/
def extractBraces (s : List Char) : Option (List Char) :=
  match s.findIdx? (fun c => c = '{') with
  | none => none
  | some i =>
    match s.reverse.findIdx? (fun c => c = '}') with
    | none => none
    | some jr =>
      let j := s.length - 1 - jr
      if i < j then some ((s.take (j + 1)).drop i) else none

/-- The re-escaping `fixMalformedJsonDiff` applies to a recovered diff body.
The five sequential `replace` calls collapse to one character map: the first
doubles every backslash (later steps never produce new ones), the quote step
is vacuous (the capture cannot contain a quote), and the remaining steps
escape newlines, carriage returns and tabs. -/
def reEscapeDiff (s : List Char) : List Char :=
  s.flatMap (fun c =>
    if c = '\\' then ['\\', '\\']
    else if c = '"' then ['\\', '"']
    else if c = '\n' then ['\\', 'n']
    else if c = '\r' then ['\\', 'r']
    else if c = '\t' then ['\\', 't']
    else [c])

/-- `fixMalformedJsonDiff` (parsers.ts lines 119-134).  The pattern
`"diff":\s*"([^"]*(?:\\.[^"]*)*?)"` captures exactly the run up to the first
quote after the opening quote: the greedy `[^"]*` reaches that quote, the lazy
group matches empty, and the closing quote then succeeds immediately. -/
def fixMalformedJsonDiffCL : Nat → List Char → List Char
  | 0, s => s
  | fuel + 1, s =>
    match s with
    | [] => []
    | c :: rest =>
      let attempt : Option (List Char × List Char) :=
        if hasPrefixCL "\"diff\":".data (c :: rest) then
          let r := ((c :: rest).drop 7).dropWhile isJsWs
          match r with
          | '"' :: r2 =>
            let body := r2.takeWhile (fun ch => ch ≠ '"')
            match r2.drop body.length with
            | '"' :: r3 => some ("\"diff\": \"".data ++ reEscapeDiff body ++ ['"'], r3)
            | _ => none
          | _ => none
        else none
      match attempt with
      | some (rep, rest2) => rep ++ fixMalformedJsonDiffCL fuel rest2
      | none => c :: fixMalformedJsonDiffCL fuel rest

/-- First match of `key\s*"([^"]+)"` scanning left to right (used for
`"step_id":` and `"format":`); the capture is the nonempty run up to the next
quote. -/
def findKeyString (key : List Char) : List Char → Option (List Char)
  | [] => none
  | c :: rest =>
    let attempt : Option (List Char) :=
      if hasPrefixCL key (c :: rest) then
        let r := ((c :: rest).drop key.length).dropWhile isJsWs
        match r with
        | '"' :: r2 =>
          let body := r2.takeWhile (fun ch => ch ≠ '"')
          if body = [] then none
          else match r2.drop body.length with
            | '"' :: _ => some body
            | _ => none
        | _ => none
      else none
    match attempt with
    | some b => some b
    | none => findKeyString key rest

/-- First match of `key\s*"([^"]*(?:\\.[^"]*)*?)"` (used for
`"explanation":`); as for the diff fixer, the capture is exactly the possibly
empty run up to the first quote. -/
def findKeyStringAllowEmpty (key : List Char) : List Char → Option (List Char)
  | [] => none
  | c :: rest =>
    let attempt : Option (List Char) :=
      if hasPrefixCL key (c :: rest) then
        let r := ((c :: rest).drop key.length).dropWhile isJsWs
        match r with
        | '"' :: r2 =>
          let body := r2.takeWhile (fun ch => ch ≠ '"')
          match r2.drop body.length with
          | '"' :: _ => some body
          | _ => none
        | _ => none
      else none
    match attempt with
    | some b => some b
    | none => findKeyStringAllowEmpty key rest

/-- First match of `"suggested_patch":\s*\x7b([^\x7d]*(?:\x7b[^\x7d]*\x7d[^\x7d]*)*)\x7d`:
the capture is exactly the run up to the first closing brace after the
opening brace (greedy first piece, lazy group matching empty). -/
def findSuggestedPatchContent : List Char → Option (List Char)
  | [] => none
  | c :: rest =>
    let attempt : Option (List Char) :=
      if hasPrefixCL "\"suggested_patch\":".data (c :: rest) then
        let r := ((c :: rest).drop 18).dropWhile isJsWs
        match r with
        | '{' :: r2 =>
          let body := r2.takeWhile (fun ch => ch ≠ '}')
          match r2.drop body.length with
          | '}' :: _ => some body
          | _ => none
        | _ => none
      else none
    match attempt with
    | some b => some b
    | none => findSuggestedPatchContent rest

/-- Lazy body of `"diff":\s*"([\s\S]*?)"\s*\x7d`: grow the capture until a
quote followed by optional whitespace and a closing brace. -/
def diffLazyBody (acc : List Char) : List Char → Option (List Char)
  | [] => none
  | c :: rest =>
    if c = '"' && (match rest.dropWhile isJsWs with | '}' :: _ => true | _ => false) then
      some acc.reverse
    else diffLazyBody (c :: acc) rest

/-- First match of the lazy diff pattern, scanning start positions left to
right. -/
def findDiffLazy : List Char → Option (List Char)
  | [] => none
  | c :: rest =>
    let attempt : Option (List Char) :=
      if hasPrefixCL "\"diff\":".data (c :: rest) then
        let r := ((c :: rest).drop 7).dropWhile isJsWs
        match r with
        | '"' :: r2 => diffLazyBody [] r2
        | _ => none
      else none
    match attempt with
    | some b => some b
    | none => findDiffLazy rest

/-- Replace every occurrence of the two-character sequence `a b` by `c`,
scanning left to right (JavaScript `replace(/ab/g, c)` for literal patterns). -/
def replacePairAll : List Char → Char → Char → Char → List Char
  | [], _, _, _ => []
  | [x], _, _, _ => [x]
  | x :: y :: rest, a, b, c =>
    if x = a ∧ y = b then c :: replacePairAll rest a b c
    else x :: replacePairAll (y :: rest) a b c

/-- Manual diff unescaping: `.replace(/\\n/g, '\n').replace(/\\"/g, '"')`. -/
def unescapeDiffManual (s : List Char) : List Char :=
  replacePairAll (replacePairAll s '\\' 'n' '\n') '\\' '"' '"'

/-- Manual explanation unescaping: `.replace(/\\"/g, '"').replace(/\\n/g, '\n')`
(the quote step is vacuous since the capture contains no quote). -/
def unescapeExplanationManual (s : List Char) : List Char :=
  replacePairAll (replacePairAll s '\\' '"' '"') '\\' 'n' '\n'

/-- `extractStepExecutionManually` (parsers.ts lines 139-174): regex-recover
`step_id`, `explanation` and the `format`/`diff` pair; the resulting plain
object is modelled as a `JValue.obj` with exactly the recovered fields. -/
def extractStepExecutionManually (jsonString : List Char) : JValue :=
  let f1 :=
    match findKeyString "\"step_id\":".data jsonString with
    | some b => [("step_id", JValue.str (String.mk b))]
    | none => []
  let f2 :=
    match findKeyStringAllowEmpty "\"explanation\":".data jsonString with
    | some b => [("explanation", JValue.str (String.mk (unescapeExplanationManual b)))]
    | none => []
  let f3 :=
    match findSuggestedPatchContent jsonString with
    | none => []
    | some patchContent =>
      match findKeyString "\"format\":".data patchContent, findDiffLazy jsonString with
      | some fm, some df =>
        [("suggested_patch", JValue.obj
          [("format", JValue.str (String.mk fm)),
           ("diff", JValue.str (String.mk (unescapeDiffManual df)))])]
      | _, _ => []
  JValue.obj (f1 ++ f2 ++ f3)

/-- Tier 1 of the normalizer: strict `JSON.parse` of the brace-extracted span
followed by the shared validation; any thrown error falls through. -/
def stepTier1 (rawJson : List Char) : Option StepExecution := do
  let v ← jsonParseCL rawJson
  (parseValidatedStepExecution v).toOption

/-- Tier 2: re-escape the diff string, reparse and validate. -/
def stepTier2 (rawJson : List Char) : Option StepExecution := do
  let v ← jsonParseCL (fixMalformedJsonDiffCL (rawJson.length + 1) rawJson)
  (parseValidatedStepExecution v).toOption

/-- Tier 3: manual field extraction then validation; its error propagates. -/
def stepTier3 (rawJson : List Char) : Except String StepExecution :=
  parseValidatedStepExecution (extractStepExecutionManually rawJson)

/-- `parseStepExecutionResponse` (parsers.ts lines 75-114): strip fence
markers, extract the brace span, then try the three recovery tiers; a
`ParseError` is modelled as `Except.error` with its message. -/
def parseStepExecutionResponse (response : String) : Except String StepExecution :=
  let jsonString := stripTrailingFenceScan (stripLeadingFenceCL response.data true)
  match extractBraces jsonString with
  | none => Except.error "No JSON object found in response"
  | some rawJson =>
    match stepTier1 rawJson with
    | some se => Except.ok se
    | none =>
      match stepTier2 rawJson with
      | some se => Except.ok se
      | none => stepTier3 rawJson

/-! ## Supporting lemmas -/

theorem splitCharLines_ne_nil (s : List Char) : splitCharLines s ≠ [] := by
  cases s with
  | nil => simp [splitCharLines]
  | cons c rest =>
    simp only [splitCharLines]
    cases splitCharLines rest with
    | nil => simp
    | cons l ls => by_cases h : c = '\n' <;> simp [h]

theorem join_split_id (s : List Char) : joinCharLines (splitCharLines s) = s := by
  induction s with
  | nil => rfl
  | cons c rest ih =>
    simp only [splitCharLines]
    cases hrest : splitCharLines rest with
    | nil => exact absurd hrest (splitCharLines_ne_nil rest)
    | cons l ls =>
      rw [hrest] at ih
      by_cases h : c = '\n'
      · subst h
        simp only [if_pos rfl]
        cases ls with
        | nil => simpa [joinCharLines] using ih
        | cons a as => simpa [joinCharLines] using ih
      · simp only [if_neg h]
        cases ls with
        | nil => simpa [joinCharLines] using ih
        | cons a as => simpa [joinCharLines] using ih

theorem hasPrefixCL_iff (p s : List Char) :
    hasPrefixCL p s = true ↔ ∃ t, s = p ++ t := by
  induction p generalizing s with
  | nil => simp [hasPrefixCL]
  | cons a p ih =>
    cases s with
    | nil => simp [hasPrefixCL]
    | cons b s =>
      simp only [hasPrefixCL, Bool.and_eq_true, decide_eq_true_eq, ih, List.cons_append,
        List.cons.injEq]
      constructor
      · rintro ⟨rfl, t, rfl⟩; exact ⟨t, rfl, rfl⟩
      · rintro ⟨t, rfl, rfl⟩; exact ⟨rfl, t, rfl⟩


theorem parseHunkOldStart_none (line : List Char)
    (h : hasPrefixCL "@@".data line = false) : parseHunkOldStart line = none := by
  simp [parseHunkOldStart, h]

theorem applyDiffStep_fst_contextish (lines : List (List Char)) (pos : Int) (l : List Char)
    (h : hasPrefixCL [' '] l = true ∨
      (hasPrefixCL ['+'] l = false ∧ hasPrefixCL ['-'] l = false ∧
        hasPrefixCL "@@".data l = false)) :
    (applyDiffStep lines pos l).1 = lines := by
  have hdata : "@@".data = ['@', '@'] := rfl
  rcases h with h | ⟨hp, hm, ha⟩
  · obtain ⟨t, rfl⟩ := (hasPrefixCL_iff [' '] l).mp h
    simp only [List.singleton_append]
    have hat : hasPrefixCL "@@".data (' ' :: t) = false := by
      rw [hdata]; simp [hasPrefixCL]
    rw [applyDiffStep, parseHunkOldStart_none _ hat]
    simp [hasPrefixCL]
  · rw [applyDiffStep, parseHunkOldStart_none _ ha]
    simp only [hp, hm]
    by_cases hs : hasPrefixCL [' '] l = true <;> simp [hs]

theorem foldl_fst_contextish (ls : List (List Char)) (st : List (List Char) × Int)
    (h : ∀ l ∈ ls,
      hasPrefixCL [' '] l = true ∨
        (hasPrefixCL ['+'] l = false ∧ hasPrefixCL ['-'] l = false ∧
          hasPrefixCL "@@".data l = false)) :
    (ls.foldl (fun st line => applyDiffStep st.1 st.2 line) st).1 = st.1 := by
  induction ls generalizing st with
  | nil => rfl
  | cons a as ih =>
    simp only [List.foldl_cons]
    rw [ih _ (fun l hl => h l (List.mem_cons_of_mem a hl))]
    exact applyDiffStep_fst_contextish st.1 st.2 a (h a (List.mem_cons_self a as))

/-- C1: applying the diff `@@ -1,3 +1,4 @@\n a\n+x\n b\n c` to the original
content `a\nb\nc` with `applyUnifiedDiff` yields exactly `a\nx\nb\nc`. -/
theorem C1_scenarioA :
    applyUnifiedDiff "a\nb\nc" "@@ -1,3 +1,4 @@\n a\n+x\n b\n c" = "a\nx\nb\nc" := by
  decide

/-- C2: applying `@@ -1,3 +1,2 @@\n a\n-b\n c` to the three-line content
`a\nb\nc` yields `a\nc`, and the change statistics computed from the original
and corrected line arrays give `linesRemoved = 1` and `totalChanges ≥ 1`. -/
theorem C2_scenarioB :
    applyUnifiedDiff "a\nb\nc" "@@ -1,3 +1,2 @@\n a\n-b\n c" = "a\nc" ∧
    (calculateChangeStats "a\nb\nc"
      (applyUnifiedDiff "a\nb\nc" "@@ -1,3 +1,2 @@\n a\n-b\n c")).linesRemoved = 1 ∧
    1 ≤ (calculateChangeStats "a\nb\nc"
      (applyUnifiedDiff "a\nb\nc" "@@ -1,3 +1,2 @@\n a\n-b\n c")).totalChanges := by
  decide

/-- C3: a diff consisting only of context lines — every line begins with a
space or carries none of the `+`, `-`, `@@` markers — leaves the content
unchanged. -/
theorem C3_context_only_identity (content diff : String)
    (h : ∀ l ∈ splitCharLines diff.data,
      hasPrefixCL [' '] l = true ∨
        (hasPrefixCL ['+'] l = false ∧ hasPrefixCL ['-'] l = false ∧
          hasPrefixCL "@@".data l = false)) :
    applyUnifiedDiff content diff = content := by
  unfold applyUnifiedDiff
  rw [foldl_fst_contextish _ _ h, join_split_id]

/-- Witness for C3 at a concrete context-only diff. -/
theorem C3_witness : applyUnifiedDiff "a\nb" " a\nxyz\n b" = "a\nb" :=
  C3_context_only_identity "a\nb" " a\nxyz\n b" (by decide)

theorem eraseAt_last {α : Type} (l : List α) : eraseAt (l.length - 1) l = l.dropLast := by
  induction l with
  | nil => rfl
  | cons a t ih =>
    cases t with
    | nil => rfl
    | cons b t2 =>
      have hlen : (a :: b :: t2).length - 1 = (b :: t2).length - 1 + 1 := by
        simp
      rw [hlen]
      show a :: eraseAt ((b :: t2).length - 1) (b :: t2) = a :: (b :: t2).dropLast
      rw [ih]

/-- C4 counterexample: a hunk header `@@ -0,0 +1 @@` sets the cursor to
`parseInt('0') - 1 = -1`, which still satisfies the code's
`currentLineIndex < lines.length` guard, so the following deletion is NOT
skipped: JavaScript `splice(-1, 1)` counts from the end and removes the last
buffer line, turning `a\nb` into `a`. -/
theorem C4_counterexample :
    applyUnifiedDiff "a\nb" "@@ -0,0 +1 @@\n-x" = "a" ∧
    applyDiffStep ["a".data, "b".data] (-1) "-x".data = (["a".data], -1) ∧
    ("a" : String) ≠ "a\nb" := by
  decide

/-- C4 (amended): the applier degrades instead of failing — a deletion whose
cursor is at or past the end of the buffer is skipped with buffer and cursor
unchanged, but a deletion at the negative cursor `-1` (reachable via a
`@@ -0... @@` header) passes the `currentLineIndex < lines.length` guard and
removes the LAST buffer line, JavaScript `splice` counting negative indices
from the end; a line reaching the hunk branch whose header does not match the
expected shape changes neither buffer nor cursor; and sequential multi-patch
application (total by construction, as the source cannot throw) skips a patch
with a missing or empty diff, retaining the prior content for the next patch,
and otherwise feeds each patch's output to the next. -/
theorem C4_applier_degrades_gracefully :
    (∀ (l : List Char) (lines : List (List Char)) (pos : Int),
      hasPrefixCL ['-'] l = true → (lines.length : Int) ≤ pos →
      applyDiffStep lines pos l = (lines, pos)) ∧
    (∀ (l : List Char) (lines : List (List Char)),
      hasPrefixCL ['-'] l = true →
      applyDiffStep lines (-1) l = (lines.dropLast, -1)) ∧
    (∀ (l : List Char) (lines : List (List Char)) (pos : Int),
      hasPrefixCL "@@".data l = true → parseHunkOldStart l = none →
      applyDiffStep lines pos l = (lines, pos)) ∧
    (∀ (content : String) (p : StepExecution) (ps : List StepExecution),
      (p.suggested_patch = none ∨ ∃ f, p.suggested_patch = some ⟨f, ""⟩) →
      applyPatchesToContent content (p :: ps) = applyPatchesToContent content ps) ∧
    (∀ (content : String) (p : StepExecution) (ps : List StepExecution) (sp : SuggestedPatch),
      p.suggested_patch = some sp → sp.diff ≠ "" →
      applyPatchesToContent content (p :: ps) =
        applyPatchesToContent (applyUnifiedDiff content sp.diff) ps) := by
  refine ⟨?_, ?_, ?_, ?_, ?_⟩
  · intro l lines pos hl hpos
    obtain ⟨t, rfl⟩ := (hasPrefixCL_iff ['-'] l).mp hl
    simp only [List.singleton_append]
    have hat : hasPrefixCL "@@".data ('-' :: t) = false := by
      simp [(rfl : "@@".data = ['@', '@']), hasPrefixCL]
    rw [applyDiffStep, parseHunkOldStart_none _ hat]
    simp [hasPrefixCL, not_lt.mpr hpos]
  · intro l lines hl
    obtain ⟨t, rfl⟩ := (hasPrefixCL_iff ['-'] l).mp hl
    simp only [List.singleton_append]
    have hat : hasPrefixCL "@@".data ('-' :: t) = false := by
      simp [(rfl : "@@".data = ['@', '@']), hasPrefixCL]
    rw [applyDiffStep, parseHunkOldStart_none _ hat]
    have hguard : (-1 : Int) < (lines.length : Int) := by
      have h0 : (0 : Int) ≤ (lines.length : Int) := Int.ofNat_nonneg _
      omega
    have hidx : spliceIndex (-1) lines.length = lines.length - 1 := by
      simp only [spliceIndex]
      rw [if_pos (by omega : (-1 : Int) < 0)]
      omega
    simp [hasPrefixCL, hguard, hidx, eraseAt_last]
  · intro l lines pos hl hnone
    obtain ⟨t, rfl⟩ := (hasPrefixCL_iff "@@".data l).mp hl
    rw [applyDiffStep, hnone]
    simp [(rfl : "@@".data = ['@', '@']), hasPrefixCL]
  · intro content p ps hp
    rcases hp with hp | ⟨f, hp⟩ <;>
      simp [applyPatchesToContent, hp]
  · intro content p ps sp hp hd
    simp [applyPatchesToContent, hp, hd]

/-- Witness for C4 at concrete inputs for each conjunct, including the
negative-cursor deletion of the last buffer line. -/
theorem C4_witness :
    applyDiffStep [['a']] 5 ['-', 'x'] = ([['a']], 5) ∧
    applyDiffStep ["w".data, "z".data] (-1) "-q".data = (["w".data], -1) ∧
    applyDiffStep [['a']] 0 "@@ bad".data = ([['a']], 0) ∧
    applyPatchesToContent "w" [⟨"s", none, "e"⟩] = applyPatchesToContent "w" [] ∧
    applyPatchesToContent "w" [⟨"s", some ⟨"unified_diff", "+z"⟩, "e"⟩] =
      applyPatchesToContent (applyUnifiedDiff "w" "+z") [] :=
  ⟨C4_applier_degrades_gracefully.1 _ _ _ (by decide) (by decide),
   (C4_applier_degrades_gracefully.2.1 _ _ (by decide)).trans (by decide),
   C4_applier_degrades_gracefully.2.2.1 _ _ _ (by decide) (by decide),
   C4_applier_degrades_gracefully.2.2.2.1 _ _ _ (Or.inl rfl),
   C4_applier_degrades_gracefully.2.2.2.2 _ _ _ _ rfl (by decide)⟩

theorem applyDiffStep_dash_zero (L : List Char)
    (hm : hasPrefixCL ['-'] L = true) (hh : parseHunkOldStart L = none)
    (lines : List (List Char)) :
    applyDiffStep lines 0 L = (lines.tail, 0) := by
  rw [applyDiffStep, hh]
  obtain ⟨t, rfl⟩ := (hasPrefixCL_iff ['-'] L).mp hm
  cases lines with
  | nil => simp [hasPrefixCL]
  | cons a b =>
    have hpos : (0 : Int) < ((a :: b).length : Int) := by
      simp
    simp [hasPrefixCL, hpos, spliceIndex, eraseAt]

theorem applyDiffStep_plus_zero (L : List Char)
    (hp : hasPrefixCL ['+'] L = true) (hh : parseHunkOldStart L = none)
    (lines : List (List Char)) :
    applyDiffStep lines 0 L = (L.drop 1 :: lines, 1) := by
  rw [applyDiffStep, hh]
  obtain ⟨t, rfl⟩ := (hasPrefixCL_iff ['+'] L).mp hp
  simp [hasPrefixCL, spliceIndex, insertAt]

theorem applyDiffStep_plus_one (L : List Char)
    (hp : hasPrefixCL ['+'] L = true) (hh : parseHunkOldStart L = none)
    (x : List Char) (lines : List (List Char)) :
    applyDiffStep (x :: lines) 1 L = (x :: L.drop 1 :: lines, 2) := by
  rw [applyDiffStep, hh]
  obtain ⟨t, rfl⟩ := (hasPrefixCL_iff ['+'] L).mp hp
  simp [hasPrefixCL, spliceIndex, insertAt]

/-- C10: the applier does not skip git-style file-header lines.  A `---` line
is executed as a deletion of the buffer line at the cursor (two successive
`---` lines delete two successive lines, confirming the cursor does not
advance); a `+++` line is executed as an addition inserting the line minus
one leading `+` (`++ b/foo.ts`) and advancing the cursor (so a following
`+A` lands after it).  The display parser instead classifies both as
`header` records with no line numbers and no counter change. -/
theorem C10_file_headers_executed :
    (∀ content : String, applyUnifiedDiff content "--- a/foo.ts" =
        String.mk (joinCharLines ((splitCharLines content.data).tail))) ∧
    (∀ content : String, applyUnifiedDiff content "--- a/x\n--- a/y" =
        String.mk (joinCharLines (((splitCharLines content.data).tail).tail))) ∧
    (∀ content : String, applyUnifiedDiff content "+++ b/foo.ts" =
        String.mk (joinCharLines ("++ b/foo.ts".data :: splitCharLines content.data))) ∧
    (∀ content : String, applyUnifiedDiff content "+++ b/foo.ts\n+A" =
        String.mk (joinCharLines ("++ b/foo.ts".data :: "A".data :: splitCharLines content.data))) ∧
    (∀ o n : Nat, displayClassify "--- a/foo.ts".data o n =
        (⟨DiffLineType.header, "--- a/foo.ts", none, none⟩, o, n)) ∧
    (∀ o n : Nat, displayClassify "+++ b/foo.ts".data o n =
        (⟨DiffLineType.header, "+++ b/foo.ts", none, none⟩, o, n)) := by
  refine ⟨?_, ?_, ?_, ?_, ?_, ?_⟩
  · intro content
    unfold applyUnifiedDiff
    rw [(by decide : splitCharLines ("--- a/foo.ts" : String).data = ["--- a/foo.ts".data])]
    simp only [List.foldl_cons, List.foldl_nil]
    rw [applyDiffStep_dash_zero _ (by decide) (by decide)]
  · intro content
    unfold applyUnifiedDiff
    rw [(by decide : splitCharLines ("--- a/x\n--- a/y" : String).data =
      ["--- a/x".data, "--- a/y".data])]
    simp only [List.foldl_cons, List.foldl_nil]
    rw [applyDiffStep_dash_zero _ (by decide) (by decide)]
    rw [applyDiffStep_dash_zero _ (by decide) (by decide)]
  · intro content
    unfold applyUnifiedDiff
    rw [(by decide : splitCharLines ("+++ b/foo.ts" : String).data = ["+++ b/foo.ts".data])]
    simp only [List.foldl_cons, List.foldl_nil]
    rw [applyDiffStep_plus_zero _ (by decide) (by decide)]
    rfl
  · intro content
    unfold applyUnifiedDiff
    rw [(by decide : splitCharLines ("+++ b/foo.ts\n+A" : String).data =
      ["+++ b/foo.ts".data, "+A".data])]
    simp only [List.foldl_cons, List.foldl_nil]
    rw [applyDiffStep_plus_zero _ (by decide) (by decide)]
    rw [applyDiffStep_plus_one _ (by decide) (by decide)]
    rfl
  · intro o n
    rfl
  · intro o n
    rfl

/-- C6 counterexample: on blank input the splitter returns zero files yet
`isSingleFile = true`, so `isSingleFile` is not equivalent to "exactly one
file was produced". -/
theorem C6_counterexample :
    parseCodeContext "" = ⟨[], true⟩ ∧
    ¬((parseCodeContext "").isSingleFile = true ↔ (parseCodeContext "").files.length = 1) := by
  decide

/-- C6 (amended): the splitter is total; blank input yields the empty file
list (with `isSingleFile = true`); non-blank input yields at least one file,
and then `isSingleFile` holds iff exactly one file was produced. -/
theorem C6_split_totality (s : String) :
    (jsTrim s = "" → parseCodeContext s = ⟨[], true⟩) ∧
    (jsTrim s ≠ "" →
      (parseCodeContext s).files ≠ [] ∧
      ((parseCodeContext s).isSingleFile = true ↔ (parseCodeContext s).files.length = 1)) := by
  constructor
  · intro h
    simp [parseCodeContext, h]
  · intro h
    unfold parseCodeContext
    rw [if_neg h]
    split
    · simp [beq_iff_eq]
    · split
      · simp [beq_iff_eq]
      · dsimp only
        split
        · rename_i hb
          refine ⟨?_, ?_⟩
          · simp only [ne_eq, List.map_eq_nil_iff]
            intro he
            have hlen := congrArg List.length he
            simp only [List.enum_length, List.length_nil] at hlen
            omega
          · simp only [List.length_map, List.enum_length]
            constructor
            · intro hf
              simp at hf
            · intro h1
              omega
        · simp

/-- Witness for C6 at a blank and a non-blank concrete input. -/
theorem C6_witness :
    parseCodeContext " " = ⟨[], true⟩ ∧
    ((parseCodeContext "x").files ≠ [] ∧
      ((parseCodeContext "x").isSingleFile = true ↔ (parseCodeContext "x").files.length = 1)) :=
  ⟨(C6_split_totality " ").1 (by decide), (C6_split_totality "x").2 (by decide)⟩

/-- C9 counterexample: a reconstructed file whose patch changed a line in
place has `linesAdded = linesRemoved = 0` with `totalChanges = 1`, and its
summary renders as `1 patch applied: 1 modifications`, not in the claimed
`+<linesAdded> lines, -<linesRemoved> lines` shape. -/
theorem C9_counterexample :
    ∃ rf ∈ reconstructFiles "a" [⟨"s1", some ⟨"unified_diff", "@@ -1 +1 @@\n-a\n+b"⟩, "e"⟩],
      rf.totalChanges ≠ 0 ∧
      rf.changesSummary = "1 patch applied: 1 modifications" ∧
      rf.changesSummary ≠ "1 patch applied: +0 lines, -0 lines" := by
  decide

/-- C9 (amended): with `totalChanges = 0` the summary is exactly
`No changes applied`; otherwise it is `<n> patch(es) applied: ` followed by
the comma-joined nonempty `+<linesAdded> lines` / `-<linesRemoved> lines`
parts, or `<totalChanges> modifications` when both counters are zero;
`patch` is pluralized iff the patch count differs from one. -/
theorem C9_changes_summary (patches : List StepExecution) (stats : ChangeStats) :
    (stats.totalChanges = 0 → generateChangesSummary patches stats = "No changes applied") ∧
    (stats.totalChanges ≠ 0 →
      generateChangesSummary patches stats =
        Nat.repr patches.length ++ " patch" ++ (if patches.length = 1 then "" else "es") ++
          " applied: " ++
          (if 0 < stats.linesAdded ∧ 0 < stats.linesRemoved then
            "+" ++ Nat.repr stats.linesAdded ++ " lines" ++ ", " ++
              ("-" ++ Nat.repr stats.linesRemoved ++ " lines")
          else if 0 < stats.linesAdded then "+" ++ Nat.repr stats.linesAdded ++ " lines"
          else if 0 < stats.linesRemoved then "-" ++ Nat.repr stats.linesRemoved ++ " lines"
          else Nat.repr stats.totalChanges ++ " modifications")) := by
  constructor
  · intro h
    simp [generateChangesSummary, h]
  · intro h
    unfold generateChangesSummary
    rw [if_neg h]
    by_cases ha : 0 < stats.linesAdded <;> by_cases hr : 0 < stats.linesRemoved <;>
      simp [ha, hr, joinCommaSpace]

/-- Witness for C9 at concrete statistics exercising both branches. -/
theorem C9_witness :
    generateChangesSummary [] ⟨0, 0, 0⟩ = "No changes applied" ∧
    generateChangesSummary [⟨"s1", some ⟨"unified_diff", "+x"⟩, "e"⟩] ⟨2, 1, 4⟩ =
      "1 patch applied: +2 lines, -1 lines" :=
  ⟨(C9_changes_summary [] ⟨0, 0, 0⟩).1 rfl,
   ((C9_changes_summary [⟨"s1", some ⟨"unified_diff", "+x"⟩, "e"⟩] ⟨2, 1, 4⟩).2
      (by decide)).trans (by decide)⟩

theorem displayParseFrom_length (ls : List (List Char)) (o n : Nat) :
    (displayParseFrom ls o n).length = ls.length := by
  induction ls generalizing o n with
  | nil => rfl
  | cons a as ih => simp [displayParseFrom, ih]

theorem displayParseFrom_getq (ls : List (List Char)) (o n i : Nat) :
    (displayParseFrom ls o n)[i]? =
      (ls[i]?).map (fun l =>
        (displayClassify l (displayCountersAfter (ls.take i) (o, n)).1
          (displayCountersAfter (ls.take i) (o, n)).2).1) := by
  induction ls generalizing o n i with
  | nil => simp [displayParseFrom]
  | cons a as ih =>
    cases i with
    | zero => simp [displayParseFrom, displayCountersAfter]
    | succ j =>
      simp only [displayParseFrom, List.getElem?_cons_succ, List.take_succ_cons,
        displayCountersAfter, List.foldl_cons]
      exact ih (displayClassify a o n).2.1 (displayClassify a o n).2.2 j

theorem classify_step_mono (l : List Char) (o n : Nat) (h : isCounterReset l = false) :
    o ≤ (displayClassify l o n).2.1 ∧ n ≤ (displayClassify l o n).2.2 := by
  unfold isCounterReset at h
  unfold displayClassify
  by_cases h1 : hasPrefixCL "@@".data l = true
  · cases hscan : displayHunkScan l with
    | some r => rw [h1, hscan] at h; simp at h
    | none => simp [h1, hscan]
  · simp only [h1, Bool.false_eq_true, if_false]
    split
    · exact ⟨le_refl o, le_refl n⟩
    · split
      · exact ⟨le_refl o, Nat.le_succ n⟩
      · split
        · exact ⟨Nat.le_succ o, le_refl n⟩
        · split
          · exact ⟨Nat.le_succ o, Nat.le_succ n⟩
          · exact ⟨Nat.le_succ o, Nat.le_succ n⟩

theorem displayCountersAfter_mono (ms : List (List Char)) (st : Nat × Nat)
    (h : ∀ l ∈ ms, isCounterReset l = false) :
    st.1 ≤ (displayCountersAfter ms st).1 ∧ st.2 ≤ (displayCountersAfter ms st).2 := by
  induction ms generalizing st with
  | nil => exact ⟨le_refl _, le_refl _⟩
  | cons a as ih =>
    have hstep := classify_step_mono a st.1 st.2 (h a (by simp))
    have hrest := ih (displayClassify a st.1 st.2).2 (fun l hl => h l (by simp [hl]))
    simp only [displayCountersAfter, List.foldl_cons] at *
    exact ⟨le_trans hstep.1 hrest.1, le_trans hstep.2 hrest.2⟩

theorem classify_old_emitted (l : List Char) (o n a : Nat)
    (h : ((displayClassify l o n).1).oldLineNumber = some a) : a = o := by
  unfold displayClassify at h
  repeat' split at h
  all_goals simp_all

theorem classify_new_emitted (l : List Char) (o n b : Nat)
    (h : ((displayClassify l o n).1).newLineNumber = some b) : b = n := by
  unfold displayClassify at h
  repeat' split at h
  all_goals simp_all

theorem classify_old_nonreset (l : List Char) (o n a : Nat)
    (h : ((displayClassify l o n).1).oldLineNumber = some a) :
    isCounterReset l = false := by
  unfold displayClassify at h
  by_cases h1 : hasPrefixCL "@@".data l = true
  · rw [if_pos h1] at h
    exfalso
    cases hscan : displayHunkScan l <;> rw [hscan] at h <;> simp at h
  · simp [isCounterReset, h1]

theorem classify_new_nonreset (l : List Char) (o n b : Nat)
    (h : ((displayClassify l o n).1).newLineNumber = some b) :
    isCounterReset l = false := by
  unfold displayClassify at h
  by_cases h1 : hasPrefixCL "@@".data l = true
  · rw [if_pos h1] at h
    exfalso
    cases hscan : displayHunkScan l <;> rw [hscan] at h <;> simp at h
  · simp [isCounterReset, h1]

theorem classify_presence (l : List Char) (o n : Nat) :
    (((displayClassify l o n).1).type = DiffLineType.deletion →
      ((displayClassify l o n).1).oldLineNumber = some o ∧
      ((displayClassify l o n).1).newLineNumber = none) ∧
    (((displayClassify l o n).1).type = DiffLineType.addition →
      ((displayClassify l o n).1).newLineNumber = some n ∧
      ((displayClassify l o n).1).oldLineNumber = none) ∧
    (((displayClassify l o n).1).type = DiffLineType.context →
      ((displayClassify l o n).1).oldLineNumber = some o ∧
      ((displayClassify l o n).1).newLineNumber = some n) ∧
    (((displayClassify l o n).1).type = DiffLineType.header ∨
        ((displayClassify l o n).1).type = DiffLineType.hunk →
      ((displayClassify l o n).1).oldLineNumber = none ∧
      ((displayClassify l o n).1).newLineNumber = none) := by
  unfold displayClassify
  repeat' split
  all_goals simp_all

theorem isResetRecord_classify (l : List Char) (o n : Nat) :
    isResetRecord ((displayClassify l o n).1) = isCounterReset l := by
  unfold isResetRecord isCounterReset displayClassify
  by_cases h1 : hasPrefixCL "@@".data l = true
  · cases hscan : displayHunkScan l <;> simp [h1, hscan]
  · simp only [h1, Bool.false_eq_true, if_false, Bool.false_and]
    repeat' split
    all_goals simp

theorem classify_reset (l : List Char) (o n o2 n2 : Nat)
    (h1 : hasPrefixCL "@@".data l = true) (h2 : displayHunkScan l = some (o2, n2)) :
    displayClassify l o n = (⟨DiffLineType.hunk, String.mk l, none, none⟩, o2, n2) := by
  unfold displayClassify
  simp [h1, h2]

theorem classify_hunk_inv (l : List Char) (o n : Nat)
    (h : ((displayClassify l o n).1).type = DiffLineType.hunk) :
    hasPrefixCL "@@".data l = true ∧
    ((displayClassify l o n).1).content = String.mk l := by
  unfold displayClassify at *
  repeat' split at h
  all_goals simp_all

theorem countersAfter_take_add (ls : List (List Char)) (st : Nat × Nat) (i m : Nat) :
    displayCountersAfter (ls.take (i + m)) st =
      displayCountersAfter ((ls.drop i).take m) (displayCountersAfter (ls.take i) st) := by
  unfold displayCountersAfter
  rw [List.take_add, List.foldl_append]

theorem mem_displayParseFrom (dl : DiffLine) (ls : List (List Char)) (o n : Nat)
    (h : dl ∈ displayParseFrom ls o n) :
    ∃ l o2 n2, dl = (displayClassify l o2 n2).1 := by
  induction ls generalizing o n with
  | nil => simp [displayParseFrom] at h
  | cons a as ih =>
    simp only [displayParseFrom, List.mem_cons] at h
    rcases h with h | h
    · exact ⟨a, o, n, h⟩
    · exact ih _ _ h

theorem countersAfter_concat (xs : List (List Char)) (l : List Char) (st : Nat × Nat) :
    displayCountersAfter (xs ++ [l]) st =
      (displayClassify l (displayCountersAfter xs st).1 (displayCountersAfter xs st).2).2 := by
  unfold displayCountersAfter
  rw [List.foldl_append]
  rfl

/-- C8 (amended): in unified-diff display mode every emitted record carries
line numbers according to its kind (deletion old-only, addition new-only,
context both, header and hunk records none); between any two records with no
intervening counter-resetting hunk record both number streams are
non-decreasing; and the record immediately following a matching hunk header
takes its numbers from that header's declared old/new start offsets.  (The
numbers are naturals, not positive integers: before any matching hunk header
they start at zero — see the counterexample.) -/
theorem C8_display_line_numbers (diff : String) :
    (∀ dl ∈ parsedDiffUnified diff,
      (dl.type = DiffLineType.deletion → dl.oldLineNumber.isSome ∧ dl.newLineNumber = none) ∧
      (dl.type = DiffLineType.addition → dl.newLineNumber.isSome ∧ dl.oldLineNumber = none) ∧
      (dl.type = DiffLineType.context → dl.oldLineNumber.isSome ∧ dl.newLineNumber.isSome) ∧
      (dl.type = DiffLineType.header ∨ dl.type = DiffLineType.hunk →
        dl.oldLineNumber = none ∧ dl.newLineNumber = none)) ∧
    (∀ (i j a b : Nat) (dli dlj : DiffLine), i ≤ j →
      (parsedDiffUnified diff)[i]? = some dli →
      (parsedDiffUnified diff)[j]? = some dlj →
      (∀ (k : Nat) (dlk : DiffLine), i < k → k ≤ j → (parsedDiffUnified diff)[k]? = some dlk →
        isResetRecord dlk = false) →
      (dli.oldLineNumber = some a → dlj.oldLineNumber = some b → a ≤ b) ∧
      (dli.newLineNumber = some a → dlj.newLineNumber = some b → a ≤ b)) ∧
    (∀ (k o2 n2 : Nat) (dlk dlk1 : DiffLine), (parsedDiffUnified diff)[k]? = some dlk →
      (parsedDiffUnified diff)[k + 1]? = some dlk1 →
      dlk.type = DiffLineType.hunk → displayHunkScan dlk.content.data = some (o2, n2) →
      (∀ a, dlk1.oldLineNumber = some a → a = o2) ∧
      (∀ b, dlk1.newLineNumber = some b → b = n2)) := by
  refine ⟨?_, ?_, ?_⟩
  · intro dl hdl
    obtain ⟨l, o2, n2, rfl⟩ := mem_displayParseFrom dl _ 0 0 hdl
    have hp := classify_presence l o2 n2
    refine ⟨fun ht => ?_, fun ht => ?_, fun ht => ?_, fun ht => hp.2.2.2 ht⟩
    · have := hp.1 ht
      exact ⟨by rw [this.1]; rfl, this.2⟩
    · have := hp.2.1 ht
      exact ⟨by rw [this.1]; rfl, this.2⟩
    · have := hp.2.2.1 ht
      exact ⟨by rw [this.1]; rfl, by rw [this.2]; rfl⟩
  · intro i j a b dli dlj hij hi hj hnores
    unfold parsedDiffUnified at hi hj hnores
    rw [displayParseFrom_getq] at hi hj
    obtain ⟨li, hli, hdli⟩ := Option.map_eq_some'.mp hi
    obtain ⟨lj, hlj, hdlj⟩ := Option.map_eq_some'.mp hj
    set ls := splitCharLines diff.data with hls
    have key : isCounterReset li = false →
        (displayCountersAfter (ls.take i) (0, 0)).1 ≤
            (displayCountersAfter (ls.take j) (0, 0)).1 ∧
        (displayCountersAfter (ls.take i) (0, 0)).2 ≤
            (displayCountersAfter (ls.take j) (0, 0)).2 := by
      intro hresi
      have hj' : j = i + (j - i) := by omega
      rw [hj', countersAfter_take_add]
      apply displayCountersAfter_mono
      intro l hl
      obtain ⟨m, hm⟩ := List.mem_iff_getElem?.mp hl
      have hmlt : m < j - i := by
        by_contra hge
        rw [List.getElem?_take] at hm
        simp [if_neg hge] at hm
      rw [List.getElem?_take, if_pos hmlt, List.getElem?_drop] at hm
      cases m with
      | zero =>
        rw [Nat.add_zero] at hm
        rw [hli] at hm
        cases hm
        exact hresi
      | succ m2 =>
        have hk := hnores (i + (m2 + 1))
          ((displayClassify l (displayCountersAfter (ls.take (i + (m2 + 1))) (0, 0)).1
            (displayCountersAfter (ls.take (i + (m2 + 1))) (0, 0)).2).1)
          (by omega) (by omega)
          (by rw [displayParseFrom_getq, hm]; rfl)
        rw [isResetRecord_classify] at hk
        exact hk
    constructor
    · intro hoa hob
      rw [← hdli] at hoa
      rw [← hdlj] at hob
      have ha := classify_old_emitted _ _ _ _ hoa
      have hb := classify_old_emitted _ _ _ _ hob
      have hresi := classify_old_nonreset _ _ _ _ hoa
      rw [ha, hb]
      exact (key hresi).1
    · intro hoa hob
      rw [← hdli] at hoa
      rw [← hdlj] at hob
      have ha := classify_new_emitted _ _ _ _ hoa
      have hb := classify_new_emitted _ _ _ _ hob
      have hresi := classify_new_nonreset _ _ _ _ hoa
      rw [ha, hb]
      exact (key hresi).2
  · intro k o2 n2 dlk dlk1 hk hk1 htype hscan
    unfold parsedDiffUnified at hk hk1
    rw [displayParseFrom_getq] at hk hk1
    obtain ⟨lk, hlk, hdlk⟩ := Option.map_eq_some'.mp hk
    obtain ⟨lk1, hlk1, hdlk1⟩ := Option.map_eq_some'.mp hk1
    set ls := splitCharLines diff.data with hls
    rw [← hdlk] at htype hscan
    obtain ⟨hat, hcontent⟩ := classify_hunk_inv _ _ _ htype
    rw [hcontent] at hscan
    have hscan2 : displayHunkScan lk = some (o2, n2) := hscan
    have hstep : displayCountersAfter (ls.take (k + 1)) (0, 0) = (o2, n2) := by
      rw [List.take_succ, hlk]
      simp only [Option.toList_some]
      rw [countersAfter_concat]
      rw [classify_reset lk _ _ o2 n2 hat hscan2]
    rw [hstep] at hdlk1
    constructor
    · intro a hoa
      rw [← hdlk1] at hoa
      exact classify_old_emitted _ _ _ _ hoa
    · intro b hob
      rw [← hdlk1] at hob
      exact classify_new_emitted _ _ _ _ hob

/-- C8 counterexample: for the diff `-x` (a deletion before any hunk header)
the parser emits a deletion record whose old line number is 0, which is not a
positive integer. -/
theorem C8_counterexample :
    ∃ dl ∈ parsedDiffUnified "-x",
      dl.type = DiffLineType.deletion ∧ dl.oldLineNumber = some 0 := by
  decide

/-- Witness for C8 on a concrete two-hunk diff. -/
theorem C8_witness :
    ((parsedDiffUnified "@@ -3,1 +7,1 @@\n a\n-b").map
        (fun dl => (dl.oldLineNumber, dl.newLineNumber)) =
      [(none, none), (some 3, some 7), (some 4, none)]) ∧
    (∀ dlk dlk1,
      (parsedDiffUnified "@@ -3,1 +7,1 @@\n a\n-b")[0]? = some dlk →
      (parsedDiffUnified "@@ -3,1 +7,1 @@\n a\n-b")[1]? = some dlk1 →
      dlk.type = DiffLineType.hunk →
      displayHunkScan dlk.content.data = some (3, 7) →
      (∀ a, dlk1.oldLineNumber = some a → a = 3) ∧
      (∀ b, dlk1.newLineNumber = some b → b = 7)) ∧
    (∀ a b dli dlj,
      (parsedDiffUnified "@@ -3,1 +7,1 @@\n a\n-b")[1]? = some dli →
      (parsedDiffUnified "@@ -3,1 +7,1 @@\n a\n-b")[2]? = some dlj →
      dli.oldLineNumber = some a → dlj.oldLineNumber = some b → a ≤ b) := by
  refine ⟨by decide, ?_, ?_⟩
  · intro dlk dlk1 hk hk1 ht hs
    exact (C8_display_line_numbers "@@ -3,1 +7,1 @@\n a\n-b").2.2 0 3 7 dlk dlk1 hk hk1 ht hs
  · intro a b dli dlj hi hj hoa hob
    exact ((C8_display_line_numbers "@@ -3,1 +7,1 @@\n a\n-b").2.1 1 2 a b dli dlj
      (by omega) hi hj
      (fun k dlk hk1 hk2 hk3 => by
        have hk : k = 2 := by omega
        subst hk
        rw [(by decide : (parsedDiffUnified "@@ -3,1 +7,1 @@\n a\n-b")[2]? =
          some ⟨DiffLineType.deletion, "b", some 4, none⟩)] at hk3
        cases hk3
        decide)).1 hoa hob

theorem validated_ok_inv (parsed : JValue) (se : StepExecution)
    (h : parseValidatedStepExecution parsed = Except.ok se) :
    ∃ spv fmt dif,
      getField parsed "suggested_patch" = some spv ∧
      getField spv "format" = some (JValue.str fmt) ∧
      (fmt = "unified_diff" ∨ fmt = "full_file") ∧
      se.suggested_patch = some ⟨fmt, dif⟩ := by
  unfold parseValidatedStepExecution at h
  simp only [bind, Except.bind] at h
  repeat' split at h
  all_goals simp_all
  all_goals (cases h; exact ⟨_, rfl⟩)

theorem except_toOption_ok {ε α : Type} {e : Except ε α} {a : α}
    (h : e.toOption = some a) : e = Except.ok a := by
  cases e with
  | ok b => simp [Except.toOption] at h; rw [h]
  | error msg => simp [Except.toOption] at h

/-- C7: the normalizer returns a payload whose format is `unified_diff` or
`full_file`, or fails with a `ParseError`; a recovered payload whose format
is any other string is rejected by the shared validation; and the
function fails only when no brace span exists or all three recovery tiers
(strict parse, diff re-escaping repair, manual extraction) fail to produce a
validated payload. -/
theorem C7_normalizer_contract (response : String) :
    (∀ se, parseStepExecutionResponse response = Except.ok se →
      ∃ sp, se.suggested_patch = some sp ∧
        (sp.format = "unified_diff" ∨ sp.format = "full_file")) ∧
    (∀ (parsed sp : JValue) (fmt : String),
      getField parsed "suggested_patch" = some sp →
      getField sp "format" = some (JValue.str fmt) →
      fmt ≠ "unified_diff" → fmt ≠ "full_file" →
      ∃ e, parseValidatedStepExecution parsed = Except.error e) ∧
    (∀ e, parseStepExecutionResponse response = Except.error e →
      extractBraces (stripTrailingFenceScan (stripLeadingFenceCL response.data true)) = none ∨
      ∃ rawJson,
        extractBraces (stripTrailingFenceScan (stripLeadingFenceCL response.data true)) =
          some rawJson ∧
        stepTier1 rawJson = none ∧ stepTier2 rawJson = none ∧
        parseValidatedStepExecution (extractStepExecutionManually rawJson) =
          Except.error e) := by
  refine ⟨?_, ?_, ?_⟩
  · intro se h
    unfold parseStepExecutionResponse at h
    dsimp only at h
    split at h
    · simp at h
    · split at h
      · rename_i se2 heq1
        cases h
        unfold stepTier1 at heq1
        obtain ⟨v, hv, hval⟩ := Option.bind_eq_some.mp heq1
        obtain ⟨spv, fmt, dif, _, _, henum, hse⟩ :=
          validated_ok_inv v se (except_toOption_ok hval)
        exact ⟨⟨fmt, dif⟩, hse, henum⟩
      · split at h
        · rename_i se2 heq2
          cases h
          unfold stepTier2 at heq2
          obtain ⟨v, hv, hval⟩ := Option.bind_eq_some.mp heq2
          obtain ⟨spv, fmt, dif, _, _, henum, hse⟩ :=
            validated_ok_inv v se (except_toOption_ok hval)
          exact ⟨⟨fmt, dif⟩, hse, henum⟩
        · unfold stepTier3 at h
          obtain ⟨spv, fmt, dif, _, _, henum, hse⟩ := validated_ok_inv _ se h
          exact ⟨⟨fmt, dif⟩, hse, henum⟩
  · intro parsed sp fmt hsp hfmt hne1 hne2
    cases hres : parseValidatedStepExecution parsed with
    | error e => exact ⟨e, rfl⟩
    | ok se =>
      obtain ⟨spv, fmt2, dif, hsp2, hfmt2, henum, _⟩ := validated_ok_inv parsed se hres
      rw [hsp] at hsp2
      obtain rfl : sp = spv := by injection hsp2
      rw [hfmt] at hfmt2
      obtain rfl : fmt = fmt2 := by
        have := Option.some.inj hfmt2
        injection this
      rcases henum with h | h
      · exact absurd h hne1
      · exact absurd h hne2
  · intro e h
    unfold parseStepExecutionResponse at h
    dsimp only at h
    split at h
    · rename_i heq
      exact Or.inl heq
    · rename_i rawJson heq
      split at h
      · simp at h
      · rename_i h1
        split at h
        · simp at h
        · rename_i h2
          unfold stepTier3 at h
          exact Or.inr ⟨rawJson, heq, h1, h2, h⟩

/-- Witness for C7: a well-formed response accepted with an enum format, a
concrete payload with format `patch` rejected by validation, and a concrete
json-free response failing with no recoverable span. -/
theorem C7_witness :
    (∃ sp, ((⟨"s1", some ⟨"unified_diff", "+x"⟩, "ok"⟩ : StepExecution).suggested_patch =
        some sp) ∧
      (sp.format = "unified_diff" ∨ sp.format = "full_file")) ∧
    (∃ e, parseValidatedStepExecution (JValue.obj
        [("step_id", JValue.str "s1"),
         ("suggested_patch", JValue.obj
           [("format", JValue.str "patch"), ("diff", JValue.str "+x")]),
         ("explanation", JValue.str "ok")]) = Except.error e) ∧
    (extractBraces (stripTrailingFenceScan (stripLeadingFenceCL ("no json" : String).data true)) =
        none ∨
      ∃ rawJson,
        extractBraces (stripTrailingFenceScan (stripLeadingFenceCL ("no json" : String).data true)) =
          some rawJson ∧
        stepTier1 rawJson = none ∧ stepTier2 rawJson = none ∧
        parseValidatedStepExecution (extractStepExecutionManually rawJson) =
          Except.error "No JSON object found in response") :=
  ⟨(C7_normalizer_contract
      "\x7b\"step_id\":\"s1\",\"suggested_patch\":\x7b\"format\":\"unified_diff\",\"diff\":\"+x\"\x7d,\"explanation\":\"ok\"\x7d").1
      ⟨"s1", some ⟨"unified_diff", "+x"⟩, "ok"⟩ (by rfl),
   (C7_normalizer_contract "").2.1
      (JValue.obj
        [("step_id", JValue.str "s1"),
         ("suggested_patch", JValue.obj
           [("format", JValue.str "patch"), ("diff", JValue.str "+x")]),
         ("explanation", JValue.str "ok")])
      (JValue.obj [("format", JValue.str "patch"), ("diff", JValue.str "+x")])
      "patch" (by rfl) (by rfl) (by decide) (by decide),
   (C7_normalizer_contract "no json").2.2 "No JSON object found in response" (by rfl)⟩
